import Mathlib

/-!
Shallow embedding of the deterministic SQL policy gate of the text-ql
repository (src/validation/policy_gate.py and src/validation/schema_checker.py)
together with the data model it uses (src/api/models.py, src/schema/models.py,
src/config/settings.py).

SQL text is modelled as `List Char`.  The Python string and regex primitives
the gate relies on are modelled over their ASCII character classes
(`\s`, `\d`, `\w`, `str.strip`, `str.upper`, `str.lower`).
-/

namespace TextQL

/-- SQL text is modelled as a list of characters. -/
abbrev Str : Type := List Char

/-- Characters treated as whitespace by Python's `str.strip`/`str.rstrip`
and by the regex class `\s` (ASCII range). -/
def isPySpace (c : Char) : Bool :=
  c = ' ' || c = '\t' || c = '\n' || c = '\r' || c = '\x0b' || c = '\x0c'

/-- Word characters of the regex class `\w` (ASCII range), the class used by
the `\b` word boundaries of the LIMIT pattern. -/
def isWordChar (c : Char) : Bool :=
  c.isAlpha || c.isDigit || c = '_'

/-- Python `str.rstrip()`. -/
def pyRStrip (s : Str) : Str :=
  (s.reverse.dropWhile isPySpace).reverse

/-- Python `str.strip()`. -/
def pyStrip (s : Str) : Str :=
  pyRStrip (s.dropWhile isPySpace)

/-- Python `str.upper()` (ASCII). -/
def pyUpper (s : Str) : Str := s.map Char.toUpper

/-- Python `str.lower()` (ASCII). -/
def pyLower (s : Str) : Str := s.map Char.toLower

/-- `StatementType` of src/validation/policy_gate.py. -/
inductive StatementType where
  | SELECT
  | INSERT
  | UPDATE
  | DELETE
  | DROP
  | TRUNCATE
  | ALTER
  | CREATE
  | GRANT
  | REVOKE
  | WITH
  | UNKNOWN
deriving DecidableEq

/-- `classify_statement` of src/validation/policy_gate.py: strip and
upper-case the SQL, then test the keyword prefixes in the source's order. -/
def classify_statement (sql : Str) : StatementType :=
  let normalized := pyUpper (pyStrip sql)
  if "SELECT".data.isPrefixOf normalized then StatementType.SELECT
  else if "WITH".data.isPrefixOf normalized then StatementType.WITH
  else if "INSERT".data.isPrefixOf normalized then StatementType.INSERT
  else if "UPDATE".data.isPrefixOf normalized then StatementType.UPDATE
  else if "DELETE".data.isPrefixOf normalized then StatementType.DELETE
  else if "DROP".data.isPrefixOf normalized then StatementType.DROP
  else if "TRUNCATE".data.isPrefixOf normalized then StatementType.TRUNCATE
  else if "ALTER".data.isPrefixOf normalized then StatementType.ALTER
  else if "CREATE".data.isPrefixOf normalized then StatementType.CREATE
  else if "GRANT".data.isPrefixOf normalized then StatementType.GRANT
  else if "REVOKE".data.isPrefixOf normalized then StatementType.REVOKE
  else StatementType.UNKNOWN

/-- `is_read_only_statement` of src/validation/policy_gate.py. -/
def is_read_only_statement (t : StatementType) : Bool :=
  decide (t = StatementType.SELECT) || decide (t = StatementType.WITH)

/-- Python `str.split(sep)` for a one-character separator. -/
def splitOn (sep : Char) : Str → List Str
  | [] => [[]]
  | c :: cs =>
    if c = sep then [] :: splitOn sep cs
    else
      match splitOn sep cs with
      | [] => [[c]]
      | h :: t => (c :: h) :: t

/-- Model of `re.sub(r"'[^']*'", "''", s)` (and its double-quote variant):
the regex pairs quote characters from the left, erasing the contents between
the first and second quote, the third and fourth, and so on, and leaving a
final unpaired quote alone.  Computed here on the segments produced by
splitting the text at the quote character. -/
def pairQuotes (q : Char) : List Str → Str
  | [] => []
  | [a] => a
  | [a, b] => a ++ q :: b
  | a :: _ :: c :: rest => a ++ q :: q :: pairQuotes q (c :: rest)

/-- Neutralize the contents of `q`-quoted string literals, keeping the
delimiters (model of one `re.sub` call in `check_multiple_statements`). -/
def subQuoted (q : Char) (s : Str) : Str := pairQuotes q (splitOn q s)

/-- Helper for reasoning about `splitOn`: append one character to the last
segment (or start a first segment). -/
def extendLast (parts : List Str) (c : Char) : List Str :=
  match parts with
  | [] => [[c]]
  | [a] => [a ++ [c]]
  | a :: rest => a :: extendLast rest c

/-- `check_multiple_statements` of src/validation/policy_gate.py. -/
def check_multiple_statements (sql : Str) : Bool :=
  let cleaned := subQuoted '"' (subQuoted '\'' sql)
  let parts := ((splitOn ';' cleaned).map pyStrip).filter (fun p => !p.isEmpty)
  decide (1 < parts.length)

/-- ASCII upper-case letter, regex class `[A-Z]`. -/
def isUpperAZ (c : Char) : Bool := decide ('A' ≤ c) && decide (c ≤ 'Z')

/-- Regex class `[A-Z0-9_]` of the placeholder pattern. -/
def isPhChar (c : Char) : Bool := isUpperAZ c || c.isDigit || c = '_'

/-- Attempt to match the placeholder pattern `<[A-Z][A-Z0-9_]*>` (the
`settings.placeholder_pattern` of src/config/settings.py) whose `<` has just
been consumed; `cs` is the text following the `<`. -/
def phAt (cs : Str) : Option Str :=
  match cs with
  | d :: ds =>
    if isUpperAZ d then
      match ds.dropWhile isPhChar with
      | '>' :: _ => some ('<' :: d :: (ds.takeWhile isPhChar ++ ['>']))
      | _ => none
    else none
  | [] => none

/-- Model of `re.findall(settings.placeholder_pattern, sql)`.  Scanning
character by character is equivalent to the regex scan because a match never
contains a second `<`, so matches cannot overlap. -/
def findPh : Str → List Str
  | [] => []
  | c :: cs => (if c = '<' then (phAt cs).toList else []) ++ findPh cs

/-- The `seen`-set deduplication loop of `detect_placeholders`. -/
def dedupeAux (seen : List Str) : List Str → List Str
  | [] => []
  | t :: ts => if t ∈ seen then dedupeAux seen ts else t :: dedupeAux (t :: seen) ts

/-- Python substring containment `needle in hay`. -/
def containsSub (needle : Str) : Str → Bool
  | [] => needle.isEmpty
  | c :: cs => needle.isPrefixOf (c :: cs) || containsSub needle cs

/-- Python `str.replace(pat, repl)` for a non-empty pattern: replace all
non-overlapping occurrences, scanning from the left. -/
def replaceSub (pat repl : Str) : Str → Str
  | [] => []
  | c :: cs =>
    if pat ≠ [] ∧ pat.isPrefixOf (c :: cs) then
      repl ++ replaceSub pat repl (cs.drop (pat.length - 1))
    else
      c :: replaceSub pat repl cs
termination_by s => s.length
decreasing_by
  · simp only [List.length_drop, List.length_cons]
    omega
  · simp only [List.length_cons]
    omega

/-- The meaning string `detect_placeholders` derives for a token:
strip the angle brackets, lower-case, replace underscores by spaces, then
dispatch on whether the phrase mentions "table" or "column". -/
def meaningOf (token : Str) : Str :=
  let inner := (token.drop 1).dropLast
  let words := replaceSub ['_'] [' '] (pyLower inner)
  if containsSub "table".data words then
    "Table name for ".data ++ pyStrip (replaceSub "table".data [] words)
  else if containsSub "column".data words then
    "Column name for ".data ++ pyStrip (replaceSub "column".data [] words)
  else
    "Value or identifier for ".data ++ words

/-- An entry of the list returned by `detect_placeholders` (the source uses
a dict with keys `token` and `meaning`). -/
structure Placeholder where
  token : Str
  meaning : Str
deriving DecidableEq

/-- `detect_placeholders` of src/validation/policy_gate.py. -/
def detect_placeholders (sql : Str) : List Placeholder :=
  (dedupeAux [] (findPh sql)).map (fun t => { token := t, meaning := meaningOf t })

/-- Decimal digit character for `n < 10` (and `'9'` otherwise). -/
def digitChar (n : Nat) : Char :=
  if n = 0 then '0'
  else if n = 1 then '1'
  else if n = 2 then '2'
  else if n = 3 then '3'
  else if n = 4 then '4'
  else if n = 5 then '5'
  else if n = 6 then '6'
  else if n = 7 then '7'
  else if n = 8 then '8'
  else '9'

/-- Fuel-indexed decimal printer; with fuel above `n` it produces the
decimal digits of `n`, most significant first. -/
def natDigitsAux : Nat → Nat → Str
  | 0, _ => []
  | fuel + 1, n =>
    if n < 10 then [digitChar n]
    else natDigitsAux fuel (n / 10) ++ [digitChar (n % 10)]

/-- Decimal representation of a natural number (Python `str(n)` as used by
the f-strings of the source). -/
def natDigits (n : Nat) : Str := natDigitsAux (n + 1) n

/-- Python `int(s)` on a string of decimal digits. -/
def digitsVal (ds : Str) : Nat := ds.foldl (fun a c => 10 * a + (c.toNat - 48)) 0

/-- Word-boundary condition of the `\b` before `LIMIT`: the character
preceding the match position, if any, must not be a word character. -/
def bOK : Option Char → Bool
  | none => true
  | some c => !isWordChar c

/-- Word-boundary condition of the `\b` after the digit group: the text
following the match must be empty or start with a non-word character. -/
def headNW : Str → Bool
  | [] => true
  | c :: _ => !isWordChar c

/-- Case-insensitive match of a text character against the upper-case
pattern letter `u` (`re.IGNORECASE` on ASCII). -/
def ciIs (u c : Char) : Bool := c = u || c = u.toLower

/-- The five case-insensitive letter tests of the keyword `LIMIT`. -/
def kwOK (k1 k2 k3 k4 k5 : Char) : Bool :=
  ciIs 'L' k1 && ciIs 'I' k2 && ciIs 'M' k3 && ciIs 'I' k4 && ciIs 'T' k5

/-- Attempt to match `\bLIMIT\s+(\d+)\b` (with `re.IGNORECASE`) at the head
of `s`, where `prev` is the character immediately before `s` in the full
text.  Returns the captured digit group and the remaining text.  The
maximal-munch runs are faithful to the regex: `\s+` and `\d+` cannot
backtrack productively because the atom that follows each run rejects every
character of the run's class. -/
def limitMatchAt (prev : Option Char) (s : Str) : Option (Str × Str) :=
  match s with
  | k1 :: k2 :: k3 :: k4 :: k5 :: rest =>
    if bOK prev && kwOK k1 k2 k3 k4 k5 then
      if rest.takeWhile isPySpace ≠ [] ∧
          (rest.dropWhile isPySpace).takeWhile Char.isDigit ≠ [] ∧
          headNW ((rest.dropWhile isPySpace).dropWhile Char.isDigit) = true then
        some ((rest.dropWhile isPySpace).takeWhile Char.isDigit,
          (rest.dropWhile isPySpace).dropWhile Char.isDigit)
      else none
    else none
  | _ => none

/-- Model of `re.search(r"\bLIMIT\s+(\d+)\b", s, re.IGNORECASE)`: scan the
text left to right; on success return the text before the match, the
captured digit group, and the text after the match. -/
def searchLimit (prev : Option Char) : Str → Option (Str × Str × Str)
  | [] => none
  | c :: cs =>
    match limitMatchAt prev (c :: cs) with
    | some (ds, r) => some ([], ds, r)
    | none =>
      match searchLimit (some c) cs with
      | some (b, ds, r) => some (c :: b, ds, r)
      | none => none

/-- The replacement text `f"LIMIT {max_limit}"`. -/
def limitRepl (max_limit : Nat) : Str := "LIMIT ".data ++ natDigits max_limit

/-- Model of `re.sub(r"\bLIMIT\s+(\d+)\b", f"LIMIT {max_limit}", s,
re.IGNORECASE)`: replace every non-overlapping match, continuing the scan
after each match; the boundary context after a match is the last character
of the matched text, its final digit. -/
def subLimitAll (max_limit : Nat) (prev : Option Char) (s : Str) : Str :=
  match h : searchLimit prev s with
  | none => s
  | some (b, ds, r) =>
    b ++ limitRepl max_limit ++ subLimitAll max_limit (some (ds.getLastD '0')) r
termination_by s.length
decreasing_by
  have hdw : ∀ (p : Char → Bool) (l : Str), (l.dropWhile p).length ≤ l.length := by
    intro p l
    induction l with
    | nil => simp [List.dropWhile]
    | cons a as ih =>
      by_cases hp : p a
      · simp only [List.dropWhile, hp]
        exact Nat.le_succ_of_le ih
      · simp [List.dropWhile, hp]
  have hm : ∀ (p : Option Char) (t ds' r' : Str),
      limitMatchAt p t = some (ds', r') → r'.length < t.length := by
    intro p t ds' r' hmt
    rcases t with _ | ⟨a1, _ | ⟨a2, _ | ⟨a3, _ | ⟨a4, _ | ⟨a5, rest⟩⟩⟩⟩⟩
    · simp [limitMatchAt] at hmt
    · simp [limitMatchAt] at hmt
    · simp [limitMatchAt] at hmt
    · simp [limitMatchAt] at hmt
    · simp [limitMatchAt] at hmt
    · simp only [limitMatchAt] at hmt
      by_cases h1 : (bOK p && kwOK a1 a2 a3 a4 a5) = true
      · rw [if_pos h1] at hmt
        by_cases h2 : rest.takeWhile isPySpace ≠ [] ∧
            (rest.dropWhile isPySpace).takeWhile Char.isDigit ≠ [] ∧
            headNW ((rest.dropWhile isPySpace).dropWhile Char.isDigit) = true
        · rw [if_pos h2] at hmt
          simp only [Option.some.injEq, Prod.mk.injEq] at hmt
          obtain ⟨-, hr⟩ := hmt
          have hb1 := hdw Char.isDigit (rest.dropWhile isPySpace)
          have hb2 := hdw isPySpace rest
          simp only [← hr, List.length_cons]
          omega
        · rw [if_neg h2] at hmt; exact absurd hmt (by simp)
      · rw [if_neg h1] at hmt; exact absurd hmt (by simp)
  have hs : ∀ (t : Str) (p : Option Char) (b' ds' r' : Str),
      searchLimit p t = some (b', ds', r') → r'.length < t.length := by
    intro t
    induction t with
    | nil => intro p b' ds' r' hst; simp [searchLimit] at hst
    | cons c cs ih =>
      intro p b' ds' r' hst
      unfold searchLimit at hst
      rcases hmt : limitMatchAt p (c :: cs) with _ | ⟨ds'', r''⟩
      · rw [hmt] at hst
        rcases hss : searchLimit (some c) cs with _ | ⟨b2, ds2, r2⟩
        · rw [hss] at hst; exact absurd hst (by simp)
        · rw [hss] at hst
          simp only [Option.some.injEq, Prod.mk.injEq] at hst
          obtain ⟨-, -, hr⟩ := hst
          have := ih (some c) b2 ds2 r2 hss
          simp only [← hr, List.length_cons]
          omega
      · rw [hmt] at hst
        simp only [Option.some.injEq, Prod.mk.injEq] at hst
        obtain ⟨-, -, hr⟩ := hst
        have := hm p (c :: cs) ds'' r'' hmt
        simp only [← hr]
        omega
  exact hs s prev b ds r h

/-- `enforce_limit` of src/validation/policy_gate.py. -/
def enforce_limit (sql : Str) (max_limit : Nat) (statement_type : StatementType) :
    Str × Bool :=
  if !is_read_only_statement statement_type then (sql, false)
  else
    match searchLimit none sql with
    | some (_, ds, _) =>
      if digitsVal ds > max_limit then (subLimitAll max_limit none sql, true)
      else (sql, false)
    | none =>
      if (pyRStrip sql).getLast? = some ';' then
        ((pyRStrip sql).dropLast ++ (" LIMIT ".data ++ natDigits max_limit) ++ [';'], true)
      else
        (pyRStrip sql ++ (" LIMIT ".data ++ natDigits max_limit), true)

/-- `settings.modifying_keywords` of src/config/settings.py looked up by
`get_statement_warning` of src/validation/policy_gate.py. -/
def get_statement_warning : StatementType → Option Str
  | StatementType.INSERT =>
    some "This is an INSERT statement - it will add new data when executed".data
  | StatementType.UPDATE =>
    some "This is an UPDATE statement - it will modify existing data when executed. Verify the WHERE clause carefully.".data
  | StatementType.DELETE =>
    some "This is a DELETE statement - it will permanently remove data when executed. Verify the WHERE clause carefully.".data
  | StatementType.DROP =>
    some "This is a DROP statement - it will permanently delete the entire object and cannot be undone. Ensure you have backups.".data
  | StatementType.TRUNCATE =>
    some "This is a TRUNCATE statement - it will permanently delete all data in the table and cannot be undone.".data
  | StatementType.ALTER =>
    some "This is an ALTER statement - it will modify the table structure.".data
  | StatementType.CREATE =>
    some "This is a CREATE statement - it will create a new database object.".data
  | StatementType.GRANT =>
    some "This is a GRANT statement - it will change database permissions.".data
  | StatementType.REVOKE =>
    some "This is a REVOKE statement - it will remove database permissions.".data
  | _ => none

/-- `Column` of src/schema/models.py. -/
structure Column where
  name : Str
  type : Option Str := none
  description : Option Str := none
  primary_key : Bool := false
  foreign_key : Option Str := none
deriving DecidableEq

/-- `Table` of src/schema/models.py. -/
structure Table where
  name : Str
  columns : List Column := []
  description : Option Str := none
deriving DecidableEq

/-- `SchemaContext` of src/schema/models.py. -/
structure SchemaContext where
  tables : List Table := []
deriving DecidableEq

/-- `SchemaContext.is_empty`. -/
def SchemaContext.is_empty (s : SchemaContext) : Bool :=
  decide (s.tables.length = 0)

/-- The identifier dictionary produced by `extract_identifiers` of
src/validation/schema_checker.py (keys `tables` and `columns`). -/
structure Identifiers where
  tables : List Str
  columns : List Str

/-- `check_identifiers` of src/validation/schema_checker.py. -/
def check_identifiers (identifiers : Identifiers) (schema : SchemaContext) : List Str :=
  let schema_tables := schema.tables.map (fun t => pyLower t.name)
  let all_columns := (schema.tables.map (fun t => t.columns.map (fun c => pyLower c.name))).flatten
  (identifiers.tables.filterMap fun table =>
    if table ∈ schema_tables then none
    else some ("Table '".data ++ table ++ "' not found in provided schema".data))
  ++ (identifiers.columns.filterMap fun column =>
    if column ∈ all_columns then none
    else some ("Column '".data ++ column ++ "' not found in provided schema".data))

/-- `check_schema_consistency` of src/validation/policy_gate.py, parametrized
by the identifier-extraction function `extract_identifiers` (whose regex
details none of the verified claims depend on; the theorems about the gate
hold for every extraction function). -/
def check_schema_consistency (extract_identifiers : Str → Identifiers)
    (sql : Str) (schema : SchemaContext) : List Str :=
  check_identifiers (extract_identifiers sql) schema

/-- `QueryStatus` of src/api/models.py. -/
inductive QueryStatus where
  | VALIDATED
  | DRAFT
  | REVIEW_REQUIRED
  | ERROR
deriving DecidableEq

/-- `PolicyGateOutput` of src/api/models.py. -/
structure PolicyGateOutput where
  passed : Bool
  sql : Str
  status : QueryStatus
  warnings : List Str
  policy_errors : List Str
deriving DecidableEq

/-- `determine_status` of src/validation/policy_gate.py. -/
def determine_status (statement_type : StatementType)
    (has_placeholders has_schema_issues : Bool) : QueryStatus :=
  if !is_read_only_statement statement_type then QueryStatus.REVIEW_REQUIRED
  else if has_placeholders then QueryStatus.DRAFT
  else if has_schema_issues then QueryStatus.DRAFT
  else QueryStatus.VALIDATED

/-- The error message of the unknown-statement-type branch. -/
def unknownTypeMsg : Str :=
  "Unable to determine SQL statement type. Query must start with a valid SQL keyword.".data

/-- The error message of the multiple-statements branch. -/
def multipleStatementsMsg : Str :=
  "Multiple SQL statements detected. Please submit one query at a time.".data

/-- The placeholder warning appended in step 5 of the gate. -/
def placeholdersMsg : Str :=
  "SQL contains placeholders that need to be replaced with actual values".data

/-- The warning `f"LIMIT {settings.max_row_limit} was enforced on the query"`. -/
def limitEnforcedMsg (max_row_limit : Nat) : Str :=
  "LIMIT ".data ++ natDigits max_row_limit ++ " was enforced on the query".data

/-- `run_policy_gate` of src/validation/policy_gate.py, parametrized by the
identifier-extraction function (see `check_schema_consistency`) and by
`settings.max_row_limit`. -/
def run_policy_gate (extract_identifiers : Str → Identifiers) (max_row_limit : Nat)
    (sql : Str) (schema : Option SchemaContext)
    (has_placeholders_from_writer : Bool) : PolicyGateOutput :=
  let statement_type := classify_statement sql
  if statement_type = StatementType.UNKNOWN then
    { passed := false, sql := sql, status := QueryStatus.ERROR,
      warnings := [], policy_errors := [unknownTypeMsg] }
  else if check_multiple_statements sql then
    { passed := false, sql := sql, status := QueryStatus.ERROR,
      warnings := [], policy_errors := [multipleStatementsMsg] }
  else
    let warnings1 : List Str :=
      match get_statement_warning statement_type with
      | some w => ["⚠️ ".data ++ w]
      | none => []
    let el :=
      if is_read_only_statement statement_type then
        enforce_limit sql max_row_limit statement_type
      else (sql, false)
    let warnings2 := warnings1 ++ (if el.2 then [limitEnforcedMsg max_row_limit] else [])
    let has_placeholders := !(detect_placeholders el.1).isEmpty || has_placeholders_from_writer
    let warnings3 := warnings2 ++
      (if has_placeholders && !(warnings2.any fun w => containsSub "placeholder".data (pyLower w))
        then [placeholdersMsg] else [])
    let schema_issues :=
      match schema with
      | some sc =>
        if !sc.is_empty && is_read_only_statement statement_type then
          check_schema_consistency extract_identifiers el.1 sc
        else []
      | none => []
    { passed := true, sql := el.1,
      status := determine_status statement_type has_placeholders (!schema_issues.isEmpty),
      warnings := warnings3 ++ schema_issues, policy_errors := [] }

/-- The pair (possibly rewritten SQL, LIMIT-modified flag) after step 4 of
the gate: LIMIT enforcement runs only on read-only statements. -/
def gateModified (max_row_limit : Nat) (sql : Str) : Str × Bool :=
  if is_read_only_statement (classify_statement sql) then
    enforce_limit sql max_row_limit (classify_statement sql)
  else (sql, false)

/-- The warnings accumulated by the gate before its placeholder step: the
statement-type warning and the LIMIT-enforced warning. -/
def gateWarnsPre (max_row_limit : Nat) (sql : Str) : List Str :=
  (match get_statement_warning (classify_statement sql) with
    | some w => ["⚠️ ".data ++ w]
    | none => []) ++
  (if (gateModified max_row_limit sql).2 then [limitEnforcedMsg max_row_limit] else [])

/-- The schema issues computed by step 6 of the gate. -/
def gateSchemaIssues (extract_identifiers : Str → Identifiers) (max_row_limit : Nat)
    (sql : Str) (schema : Option SchemaContext) : List Str :=
  match schema with
  | some sc =>
    if !sc.is_empty && is_read_only_statement (classify_statement sql) then
      check_schema_consistency extract_identifiers (gateModified max_row_limit sql).1 sc
    else []
  | none => []

/-- The declarative shape of a `\bLIMIT\s+(\d+)\b` match: `v` is a
case-insensitive LIMIT keyword, a non-empty whitespace run, the non-empty
digit group `ds`, and a remainder `r` that satisfies the trailing word
boundary. -/
def matchShape (ds r v : Str) : Prop :=
  ∃ k1 k2 k3 k4 k5 sp, kwOK k1 k2 k3 k4 k5 = true ∧ sp ≠ [] ∧
    sp.all isPySpace = true ∧ ds ≠ [] ∧ ds.all Char.isDigit = true ∧
    headNW r = true ∧ v = k1 :: k2 :: k3 :: k4 :: k5 :: (sp ++ ds ++ r)

/-- Modelled from the spec's contract for the classifier: the keyword
priority list "SELECT, WITH, INSERT, UPDATE, DELETE, DROP, TRUNCATE, ALTER,
CREATE, GRANT, REVOKE". -/
def keywordPriority : List (Str × StatementType) :=
  [("SELECT".data, StatementType.SELECT), ("WITH".data, StatementType.WITH),
   ("INSERT".data, StatementType.INSERT), ("UPDATE".data, StatementType.UPDATE),
   ("DELETE".data, StatementType.DELETE), ("DROP".data, StatementType.DROP),
   ("TRUNCATE".data, StatementType.TRUNCATE), ("ALTER".data, StatementType.ALTER),
   ("CREATE".data, StatementType.CREATE), ("GRANT".data, StatementType.GRANT),
   ("REVOKE".data, StatementType.REVOKE)]

/-- Modelled from the spec's words: strip and uppercase the text, test the
prefixes in priority order, return the first match, else UNKNOWN. -/
def specClassify (sql : Str) : StatementType :=
  ((keywordPriority.find? (fun p => p.1.isPrefixOf (pyUpper (pyStrip sql)))).map
    Prod.snd).getD StatementType.UNKNOWN

/-- Modelled from the spec's words for placeholder deduplication: keep the
first occurrence of each token, dropping every later duplicate. -/
def specDedup : List Str → List Str
  | [] => []
  | x :: xs => x :: specDedup (xs.filter (fun y => decide (y ≠ x)))
termination_by l => l.length
decreasing_by
  simp only [List.length_cons]
  exact Nat.lt_succ_of_le (List.length_filter_le _ _)

/-- Helper: `takeWhile` passes over an all-true prefix. -/
theorem takeWhile_append_of_all {p : Char → Bool} {l₁ l₂ : Str} (h : l₁.all p = true) :
    (l₁ ++ l₂).takeWhile p = l₁ ++ l₂.takeWhile p := by
  induction l₁ with
  | nil => simp
  | cons a l ih =>
    simp only [List.all_cons, Bool.and_eq_true] at h
    simp [List.takeWhile_cons, h.1, ih h.2]

/-- Helper: `dropWhile` removes an all-true prefix. -/
theorem dropWhile_append_of_all {p : Char → Bool} {l₁ l₂ : Str} (h : l₁.all p = true) :
    (l₁ ++ l₂).dropWhile p = l₂.dropWhile p := by
  induction l₁ with
  | nil => simp
  | cons a l ih =>
    simp only [List.all_cons, Bool.and_eq_true] at h
    simp [List.dropWhile_cons, h.1, ih h.2]

/-- Helper: characters of code point at least 33 are not Python whitespace. -/
theorem isPySpace_eq_false_of_ge (c : Char) (h : 33 ≤ c.toNat) : isPySpace c = false := by
  simp only [isPySpace, Bool.or_eq_false_iff, decide_eq_false_iff_not]
  refine ⟨⟨⟨⟨⟨?_, ?_⟩, ?_⟩, ?_⟩, ?_⟩, ?_⟩ <;> intro he <;> subst he <;>
    exact absurd h (by decide)

/-- Helper: upper-casing preserves whitespace-ness. -/
theorem isPySpace_toUpper (c : Char) : isPySpace c.toUpper = isPySpace c := by
  simp only [Char.toUpper]
  by_cases hl : c.toNat ≥ 97 ∧ c.toNat ≤ 122
  · rw [if_pos hl]
    have hv : (Char.ofNat (c.toNat - 32)).toNat = c.toNat - 32 := by
      have hvv : (c.toNat - 32).isValidChar := Or.inl (by omega)
      simp only [Char.ofNat]
      rw [dif_pos hvv]
      rfl
    rw [isPySpace_eq_false_of_ge _ (by omega), isPySpace_eq_false_of_ge _ (by omega)]
  · rw [if_neg hl]

/-- Helper: `str.strip` commutes with `str.upper`. -/
theorem pyStrip_pyUpper_comm (s : Str) : pyStrip (pyUpper s) = pyUpper (pyStrip s) := by
  have hfun : (isPySpace ∘ Char.toUpper) = isPySpace := funext isPySpace_toUpper
  simp only [pyStrip, pyRStrip, pyUpper, List.dropWhile_map, hfun, ← List.map_reverse]

/-- Helper: classification only depends on the stripped upper-cased text. -/
theorem classify_eq_of_norm_eq {s t : Str}
    (h : pyUpper (pyStrip s) = pyUpper (pyStrip t)) :
    classify_statement s = classify_statement t := by
  simp only [classify_statement]
  rw [h]

/-- Helper: priority search hit at the head of the keyword list. -/
theorem findPrPos (N kw : Str) (t : StatementType) (l : List (Str × StatementType))
    (h : kw.isPrefixOf N = true) :
    ((List.find? (fun pr => pr.1.isPrefixOf N) ((kw, t) :: l)).map Prod.snd).getD
      StatementType.UNKNOWN = t := by
  rw [List.find?_cons_of_pos l h]
  rfl

/-- Helper: priority search skipping a non-matching keyword. -/
theorem findPrNeg (N kw : Str) (t : StatementType) (l : List (Str × StatementType))
    (h : ¬kw.isPrefixOf N = true) :
    List.find? (fun pr => pr.1.isPrefixOf N) ((kw, t) :: l) =
      List.find? (fun pr => pr.1.isPrefixOf N) l :=
  List.find?_cons_of_neg l h

/-- Helper: \`determine_status\` never produces ERROR. -/
theorem determine_status_ne_error (t : StatementType) (hp hs : Bool) :
    determine_status t hp hs ≠ QueryStatus.ERROR := by
  cases t <;> cases hp <;> cases hs <;>
    simp [determine_status, is_read_only_statement]

/-- Helper: on a read-only statement with placeholders the status is DRAFT. -/
theorem determine_status_draft_of_placeholders (t : StatementType) (hs : Bool)
    (h : is_read_only_statement t = true) :
    determine_status t true hs = QueryStatus.DRAFT := by
  cases t <;> cases hs <;> simp_all [determine_status, is_read_only_statement]

/-- Claim C2: `determine_status` is a pure function of the statement type and
the two boolean flags: non-read-only types (anything other than SELECT and
WITH) give REVIEW_REQUIRED regardless of the flags; read-only with
placeholders gives DRAFT; read-only without placeholders but with schema
issues gives DRAFT; read-only with both flags false gives VALIDATED. -/
theorem claim_C2 (t : StatementType) (hp hs : Bool) :
    ((t ≠ StatementType.SELECT ∧ t ≠ StatementType.WITH) →
      determine_status t hp hs = QueryStatus.REVIEW_REQUIRED)
    ∧ ((t = StatementType.SELECT ∨ t = StatementType.WITH) → hp = true →
      determine_status t hp hs = QueryStatus.DRAFT)
    ∧ ((t = StatementType.SELECT ∨ t = StatementType.WITH) → hp = false → hs = true →
      determine_status t hp hs = QueryStatus.DRAFT)
    ∧ ((t = StatementType.SELECT ∨ t = StatementType.WITH) → hp = false → hs = false →
      determine_status t hp hs = QueryStatus.VALIDATED) := by
  cases t <;> cases hp <;> cases hs <;>
    simp [determine_status, is_read_only_statement]

/-- Witness for C2 at a concrete input. -/
theorem claim_C2_witness :
    determine_status StatementType.INSERT true false = QueryStatus.REVIEW_REQUIRED :=
  (claim_C2 StatementType.INSERT true false).1 (by decide)

/-- Claim C10: for every input, `run_policy_gate` returns passed=false iff
status=ERROR and passed=true iff the status is one of VALIDATED, DRAFT,
REVIEW_REQUIRED; `determine_status` never returns ERROR, so ERROR arises only
from the two immediate-fail branches. -/
theorem claim_C10 (e : Str → Identifiers) (mL : Nat) (sql : Str)
    (sc : Option SchemaContext) (hint : Bool) :
    ((run_policy_gate e mL sql sc hint).passed = false ↔
      (run_policy_gate e mL sql sc hint).status = QueryStatus.ERROR)
    ∧ ((run_policy_gate e mL sql sc hint).passed = true ↔
      ((run_policy_gate e mL sql sc hint).status = QueryStatus.VALIDATED ∨
        (run_policy_gate e mL sql sc hint).status = QueryStatus.DRAFT ∨
        (run_policy_gate e mL sql sc hint).status = QueryStatus.REVIEW_REQUIRED))
    ∧ (∀ (t : StatementType) (hp hs : Bool),
        determine_status t hp hs ≠ QueryStatus.ERROR) := by
  have hres : ∀ q : QueryStatus, q ≠ QueryStatus.ERROR →
      (q = QueryStatus.VALIDATED ∨ q = QueryStatus.DRAFT ∨
        q = QueryStatus.REVIEW_REQUIRED) := by
    intro q hq; cases q <;> simp_all
  refine ⟨?_, ?_, determine_status_ne_error⟩
  · simp only [run_policy_gate]
    split_ifs <;> simp [determine_status_ne_error]
  · simp only [run_policy_gate]
    split_ifs <;> simp [hres _ (determine_status_ne_error _ _ _)]

/-- Claim C1: `run_policy_gate` returns passed=false iff the statement
classifies as UNKNOWN or the multi-statement check reports true; in those
cases the output has status ERROR, exactly one policy error, empty warnings
and the input SQL unchanged; on every other input it returns passed=true
with an empty policy_errors list. -/
theorem claim_C1 (e : Str → Identifiers) (mL : Nat) (sql : Str)
    (sc : Option SchemaContext) (hint : Bool) :
    ((run_policy_gate e mL sql sc hint).passed = false ↔
      (classify_statement sql = StatementType.UNKNOWN ∨
        check_multiple_statements sql = true))
    ∧ ((classify_statement sql = StatementType.UNKNOWN ∨
        check_multiple_statements sql = true) →
        (run_policy_gate e mL sql sc hint).status = QueryStatus.ERROR ∧
        (run_policy_gate e mL sql sc hint).policy_errors.length = 1 ∧
        (run_policy_gate e mL sql sc hint).warnings = [] ∧
        (run_policy_gate e mL sql sc hint).sql = sql)
    ∧ (¬(classify_statement sql = StatementType.UNKNOWN ∨
        check_multiple_statements sql = true) →
        (run_policy_gate e mL sql sc hint).passed = true ∧
        (run_policy_gate e mL sql sc hint).policy_errors = []) := by
  simp only [run_policy_gate]
  split_ifs with h1 h2 <;> simp_all

/-- Witness for C1: the empty string fails with status ERROR, one policy
error, no warnings, and unchanged SQL. -/
theorem claim_C1_witness :
    (run_policy_gate (fun _ => ⟨[], []⟩) 50 "".data none false).status = QueryStatus.ERROR ∧
    (run_policy_gate (fun _ => ⟨[], []⟩) 50 "".data none false).policy_errors.length = 1 ∧
    (run_policy_gate (fun _ => ⟨[], []⟩) 50 "".data none false).warnings = [] ∧
    (run_policy_gate (fun _ => ⟨[], []⟩) 50 "".data none false).sql = "".data :=
  (claim_C1 (fun _ => ⟨[], []⟩) 50 "".data none false).2.1 (Or.inl (by decide))

/-- Claim C9: in the success path, the writer's placeholder hint is OR'd with
the gate's own detection on the possibly rewritten SQL; the placeholder
warning is appended exactly when that disjunction holds and no accumulated
warning mentions "placeholder" case-insensitively; the OR'd value feeds the
status decision, so a read-only statement with no placeholder tokens but
hint=true still gets status DRAFT. -/
theorem claim_C9 (e : Str → Identifiers) (mL : Nat) (sql : Str)
    (sc : Option SchemaContext) (hint : Bool)
    (h1 : classify_statement sql ≠ StatementType.UNKNOWN)
    (h2 : check_multiple_statements sql = false) :
    ((run_policy_gate e mL sql sc hint).warnings =
      gateWarnsPre mL sql ++
      (if (!(detect_placeholders (gateModified mL sql).1).isEmpty || hint) &&
          !((gateWarnsPre mL sql).any fun w => containsSub "placeholder".data (pyLower w))
        then [placeholdersMsg] else []) ++
      gateSchemaIssues e mL sql sc)
    ∧ ((run_policy_gate e mL sql sc hint).status =
      determine_status (classify_statement sql)
        (!(detect_placeholders (gateModified mL sql).1).isEmpty || hint)
        (!(gateSchemaIssues e mL sql sc).isEmpty))
    ∧ (is_read_only_statement (classify_statement sql) = true →
      detect_placeholders (gateModified mL sql).1 = [] → hint = true →
      (run_policy_gate e mL sql sc hint).status = QueryStatus.DRAFT) := by
  have hout : run_policy_gate e mL sql sc hint =
      { passed := true, sql := (gateModified mL sql).1,
        status := determine_status (classify_statement sql)
          (!(detect_placeholders (gateModified mL sql).1).isEmpty || hint)
          (!(gateSchemaIssues e mL sql sc).isEmpty),
        warnings := (gateWarnsPre mL sql ++
          (if (!(detect_placeholders (gateModified mL sql).1).isEmpty || hint) &&
              !((gateWarnsPre mL sql).any fun w => containsSub "placeholder".data (pyLower w))
            then [placeholdersMsg] else [])) ++ gateSchemaIssues e mL sql sc,
        policy_errors := [] } := by
    simp only [run_policy_gate, gateWarnsPre, gateModified, gateSchemaIssues]
    rw [if_neg h1, if_neg (by simp [h2])]
  refine ⟨by rw [hout], by rw [hout], ?_⟩
  intro hro hdet hhint
  rw [hout]
  simp only [hdet, hhint, List.isEmpty_nil, Bool.not_true, Bool.false_or, Bool.or_true]
  exact determine_status_draft_of_placeholders _ _ hro

/-- Claim C4: `classify_statement` strips and upper-cases its input and tests
the keyword prefixes in the priority order SELECT, WITH, INSERT, UPDATE,
DELETE, DROP, TRUNCATE, ALTER, CREATE, GRANT, REVOKE, returning the first
match and UNKNOWN otherwise (first conjunct, against the spec-modelled
priority search); classification is invariant under letter-case changes and
added leading whitespace; the empty string classifies as UNKNOWN, so
`run_policy_gate` on the empty string fails immediately. -/
theorem claim_C4 :
    (∀ s : Str, classify_statement s = specClassify s)
    ∧ (∀ s t : Str, pyUpper s = pyUpper t →
        classify_statement s = classify_statement t)
    ∧ (∀ w s : Str, w.all isPySpace = true →
        classify_statement (w ++ s) = classify_statement s)
    ∧ classify_statement [] = StatementType.UNKNOWN
    ∧ (∀ (e : Str → Identifiers) (mL : Nat) (sc : Option SchemaContext) (hint : Bool),
        (run_policy_gate e mL [] sc hint).passed = false) := by
  refine ⟨?_, ?_, ?_, by decide, ?_⟩
  · intro s
    simp only [classify_statement, specClassify, keywordPriority]
    by_cases h1 : "SELECT".data.isPrefixOf (pyUpper (pyStrip s)) = true
    · rw [if_pos h1]
      exact (findPrPos _ _ _ _ h1).symm
    · rw [if_neg h1, findPrNeg _ _ _ _ h1]
      by_cases h2 : "WITH".data.isPrefixOf (pyUpper (pyStrip s)) = true
      · rw [if_pos h2]
        exact (findPrPos _ _ _ _ h2).symm
      · rw [if_neg h2, findPrNeg _ _ _ _ h2]
        by_cases h3 : "INSERT".data.isPrefixOf (pyUpper (pyStrip s)) = true
        · rw [if_pos h3]
          exact (findPrPos _ _ _ _ h3).symm
        · rw [if_neg h3, findPrNeg _ _ _ _ h3]
          by_cases h4 : "UPDATE".data.isPrefixOf (pyUpper (pyStrip s)) = true
          · rw [if_pos h4]
            exact (findPrPos _ _ _ _ h4).symm
          · rw [if_neg h4, findPrNeg _ _ _ _ h4]
            by_cases h5 : "DELETE".data.isPrefixOf (pyUpper (pyStrip s)) = true
            · rw [if_pos h5]
              exact (findPrPos _ _ _ _ h5).symm
            · rw [if_neg h5, findPrNeg _ _ _ _ h5]
              by_cases h6 : "DROP".data.isPrefixOf (pyUpper (pyStrip s)) = true
              · rw [if_pos h6]
                exact (findPrPos _ _ _ _ h6).symm
              · rw [if_neg h6, findPrNeg _ _ _ _ h6]
                by_cases h7 : "TRUNCATE".data.isPrefixOf (pyUpper (pyStrip s)) = true
                · rw [if_pos h7]
                  exact (findPrPos _ _ _ _ h7).symm
                · rw [if_neg h7, findPrNeg _ _ _ _ h7]
                  by_cases h8 : "ALTER".data.isPrefixOf (pyUpper (pyStrip s)) = true
                  · rw [if_pos h8]
                    exact (findPrPos _ _ _ _ h8).symm
                  · rw [if_neg h8, findPrNeg _ _ _ _ h8]
                    by_cases h9 : "CREATE".data.isPrefixOf (pyUpper (pyStrip s)) = true
                    · rw [if_pos h9]
                      exact (findPrPos _ _ _ _ h9).symm
                    · rw [if_neg h9, findPrNeg _ _ _ _ h9]
                      by_cases h10 : "GRANT".data.isPrefixOf (pyUpper (pyStrip s)) = true
                      · rw [if_pos h10]
                        exact (findPrPos _ _ _ _ h10).symm
                      · rw [if_neg h10, findPrNeg _ _ _ _ h10]
                        by_cases h11 : "REVOKE".data.isPrefixOf (pyUpper (pyStrip s)) = true
                        · rw [if_pos h11]
                          exact (findPrPos _ _ _ _ h11).symm
                        · rw [if_neg h11, findPrNeg _ _ _ _ h11]
                          rfl
  · intro s t h
    apply classify_eq_of_norm_eq
    calc pyUpper (pyStrip s) = pyStrip (pyUpper s) := (pyStrip_pyUpper_comm s).symm
      _ = pyStrip (pyUpper t) := by rw [h]
      _ = pyUpper (pyStrip t) := pyStrip_pyUpper_comm t
  · intro w s hw
    apply classify_eq_of_norm_eq
    simp only [pyStrip, dropWhile_append_of_all hw]
  · intro e mL sc hint
    simp only [run_policy_gate]
    rw [if_pos (by decide : classify_statement [] = StatementType.UNKNOWN)]

/-- Witness for C4 at concrete inputs: case and leading whitespace do not
change the classification. -/
theorem claim_C4_witness :
    pyUpper "  select 1".data = pyUpper "  SeLeCt 1".data ∧
    classify_statement "  select 1".data = classify_statement "  SeLeCt 1".data ∧
    ("\n ".data.all isPySpace = true) ∧
    classify_statement ("\n ".data ++ "select 1".data) = classify_statement "select 1".data :=
  ⟨by decide, claim_C4.2.1 _ _ (by decide), by decide, claim_C4.2.2.1 _ _ (by decide)⟩

/-- Helper: a split is never the empty list of segments. -/
theorem splitOn_ne_nil (q : Char) (l : Str) : splitOn q l ≠ [] := by
  induction l with
  | nil => simp [splitOn]
  | cons c cs ih =>
    by_cases h : c = q
    · simp [splitOn, h]
    · simp only [splitOn, if_neg h]
      rcases hs : splitOn q cs with _ | ⟨a, b⟩
      · simp
      · simp

/-- Helper: extending the last segment never empties the segment list. -/
theorem extendLast_ne_nil (parts : List Str) (c : Char) : extendLast parts c ≠ [] := by
  match parts with
  | [] => simp [extendLast]
  | [a] => simp [extendLast]
  | a :: b :: rest => simp [extendLast]

/-- Helper: splitting after appending a non-separator character extends the
last segment. -/
theorem splitOn_append_ne (q c : Char) (hc : c ≠ q) (t : Str) :
    splitOn q (t ++ [c]) = extendLast (splitOn q t) c := by
  induction t with
  | nil => simp [splitOn, extendLast, hc]
  | cons d ds ih =>
    rcases hs : splitOn q ds with _ | ⟨a, rest⟩
    · exact absurd hs (splitOn_ne_nil q ds)
    by_cases hd : d = q
    · have l1 : splitOn q ((d :: ds) ++ [c]) = [] :: splitOn q (ds ++ [c]) := by
        rw [List.cons_append, splitOn, if_pos hd]
      have l2 : splitOn q (d :: ds) = [] :: splitOn q ds := by
        rw [splitOn, if_pos hd]
      rw [l1, l2, ih, hs]
      rfl
    · have l1 : splitOn q ((d :: ds) ++ [c]) =
          match splitOn q (ds ++ [c]) with
          | [] => [[d]]
          | h :: t => (d :: h) :: t := by
        rw [List.cons_append, splitOn, if_neg hd]
      have l2 : splitOn q (d :: ds) =
          match splitOn q ds with
          | [] => [[d]]
          | h :: t => (d :: h) :: t := by
        rw [splitOn, if_neg hd]
      rw [l1, l2, ih, hs]
      rcases rest with _ | ⟨b, rest2⟩ <;> rfl

/-- Helper: quote pairing after extending the last segment appends the new
character at the very end. -/
theorem pairQuotes_extendLast (q c : Char) (parts : List Str) :
    pairQuotes q (extendLast parts c) = pairQuotes q parts ++ [c] := by
  suffices h : ∀ (n : Nat) (ps : List Str), ps.length ≤ n →
      pairQuotes q (extendLast ps c) = pairQuotes q ps ++ [c] from
    h parts.length parts le_rfl
  intro n
  induction n with
  | zero =>
    intro ps hlen
    rcases ps with _ | ⟨a, rest⟩
    · simp [extendLast, pairQuotes]
    · simp at hlen
  | succ n ih =>
    intro ps hlen
    rcases ps with _ | ⟨a, _ | ⟨b, _ | ⟨d, rest⟩⟩⟩
    · simp [extendLast, pairQuotes]
    · simp [extendLast, pairQuotes]
    · simp [extendLast, pairQuotes]
    · have h1 : extendLast (a :: b :: d :: rest) c = a :: b :: extendLast (d :: rest) c := rfl
      rw [h1]
      rcases he : extendLast (d :: rest) c with _ | ⟨e, es⟩
      · exact absurd he (extendLast_ne_nil _ _)
      · show a ++ q :: q :: pairQuotes q (e :: es) =
          (a ++ q :: q :: pairQuotes q (d :: rest)) ++ [c]
        rw [← he, ih (d :: rest) (by simp only [List.length_cons] at hlen ⊢; omega)]
        simp

/-- Helper: literal neutralization commutes with appending a non-quote
character. -/
theorem subQuoted_append_ne (q c : Char) (hc : c ≠ q) (t : Str) :
    subQuoted q (t ++ [c]) = subQuoted q t ++ [c] := by
  rw [subQuoted, subQuoted, splitOn_append_ne q c hc, pairQuotes_extendLast]

/-- Helper: a separator-free text splits into a single segment. -/
theorem splitOn_eq_single (q : Char) (l : Str) (h : q ∉ l) : splitOn q l = [l] := by
  induction l with
  | nil => rfl
  | cons d ds ih =>
    simp only [List.mem_cons, not_or] at h
    have hdq : ¬d = q := fun hh => h.1 hh.symm
    rw [splitOn, if_neg hdq, ih h.2]

/-- Helper: a separator-free text with one trailing separator splits into the
text and one empty segment. -/
theorem splitOn_append_sep (q : Char) (l : Str) (h : q ∉ l) :
    splitOn q (l ++ [q]) = [l, []] := by
  induction l with
  | nil => simp [splitOn]
  | cons d ds ih =>
    simp only [List.mem_cons, not_or] at h
    have hdq : ¬d = q := fun hh => h.1 hh.symm
    rw [List.cons_append, splitOn, if_neg hdq, ih h.2]

/-- Claim C5: `check_multiple_statements` returns true iff, after
neutralizing single- and double-quoted literal contents (keeping the
delimiters) and splitting on the semicolon, more than one non-whitespace
segment remains; a single statement with one trailing semicolon yields
false, and a semicolon occurring only inside a quoted literal yields false,
as in the spec's example. -/
theorem claim_C5 :
    (∀ s : Str, check_multiple_statements s = true ↔
      1 < (((splitOn ';' (subQuoted '"' (subQuoted '\'' s))).map pyStrip).filter
        (fun p => !p.isEmpty)).length)
    ∧ (∀ t : Str, ';' ∉ subQuoted '"' (subQuoted '\'' t) →
      check_multiple_statements t = false)
    ∧ (∀ t : Str, ';' ∉ subQuoted '"' (subQuoted '\'' t) →
      check_multiple_statements (t ++ [';']) = false)
    ∧ check_multiple_statements "SELECT * FROM t WHERE s = 'a;b'".data = false := by
  refine ⟨?_, ?_, ?_, by decide⟩
  · intro s
    simp [check_multiple_statements]
  · intro t h
    simp only [check_multiple_statements]
    rw [splitOn_eq_single ';' _ h]
    simp only [List.map_cons, List.map_nil, List.filter, decide_eq_false_iff_not]
    split <;> simp
  · intro t h
    simp only [check_multiple_statements]
    rw [subQuoted_append_ne '\'' ';' (by decide) t,
      subQuoted_append_ne '"' ';' (by decide) (subQuoted '\'' t),
      splitOn_append_sep ';' _ h]
    simp only [List.map_cons, List.map_nil, List.filter, decide_eq_false_iff_not]
    have hnil : pyStrip ([] : Str) = [] := rfl
    rw [hnil]
    split <;> simp

/-- Witness for C5 at a concrete input: one trailing semicolon does not
count as a second statement. -/
theorem claim_C5_witness :
    check_multiple_statements ("SELECT 1".data ++ [';']) = false :=
  claim_C5.2.2.1 "SELECT 1".data (by decide)

/-- Helper: one unfolding step of the spec-side deduplication. -/
theorem specDedup_cons (x : Str) (xs : List Str) :
    specDedup (x :: xs) = x :: specDedup (xs.filter (fun y => decide (y ≠ x))) := by
  rw [specDedup]

/-- Helper: the source's seen-set loop equals the spec-side first-occurrence
deduplication of the not-yet-seen elements. -/
theorem dedupeAux_eq_specDedup (l seen : List Str) :
    dedupeAux seen l = specDedup (l.filter (fun y => decide (y ∉ seen))) := by
  induction l generalizing seen with
  | nil => simp [dedupeAux, specDedup]
  | cons y ys ih =>
    by_cases hy : y ∈ seen
    · rw [dedupeAux, if_pos hy, List.filter_cons,
        if_neg (by simp [hy] : ¬(decide (y ∉ seen) = true)), ih]
    · rw [dedupeAux, if_neg hy, List.filter_cons,
        if_pos (by simp [hy] : decide (y ∉ seen) = true), specDedup_cons, ih (y :: seen)]
      have hfilter : (ys.filter (fun z => decide (z ∉ seen))).filter
          (fun z => decide (z ≠ y)) = ys.filter (fun z => decide (z ∉ y :: seen)) := by
        rw [List.filter_filter]
        apply List.filter_congr
        intro z _
        by_cases h1 : z = y <;> by_cases h2 : z ∈ seen <;> simp [h1, h2]
      rw [hfilter]

/-- Helper: the spec-side deduplication has no duplicates, preserves
membership, and is a sublist (so first-occurrence order is retained). -/
theorem specDedup_props (l : List Str) :
    (specDedup l).Nodup ∧ (∀ x, x ∈ specDedup l ↔ x ∈ l) ∧
    List.Sublist (specDedup l) l := by
  suffices h : ∀ (n : Nat) (t : List Str), t.length ≤ n →
      (specDedup t).Nodup ∧ (∀ x, x ∈ specDedup t ↔ x ∈ t) ∧
      List.Sublist (specDedup t) t from
    h l.length l le_rfl
  intro n
  induction n with
  | zero =>
    intro t hlen
    rcases t with _ | ⟨x, xs⟩
    · refine ⟨by simp [specDedup], fun x => by simp [specDedup], by simp [specDedup]⟩
    · simp at hlen
  | succ n ih =>
    intro t hlen
    rcases t with _ | ⟨x, xs⟩
    · refine ⟨by simp [specDedup], fun x => by simp [specDedup], by simp [specDedup]⟩
    · rw [specDedup_cons]
      have hflen : (xs.filter (fun y => decide (y ≠ x))).length ≤ n := by
        have := List.length_filter_le (fun y => decide (y ≠ x)) xs
        simp only [List.length_cons] at hlen
        omega
      obtain ⟨hnd, hmem, hsub⟩ := ih _ hflen
      refine ⟨?_, ?_, ?_⟩
      · refine List.nodup_cons.mpr ⟨?_, hnd⟩
        intro hx
        have := (hmem x).mp hx
        simp [List.mem_filter] at this
      · intro z
        simp only [List.mem_cons, hmem, List.mem_filter]
        by_cases hz : z = x <;> simp [hz]
      · exact List.Sublist.cons₂ x (hsub.trans (List.filter_sublist xs))

/-- Helper: every token found by the placeholder scan fits the pattern
`<[A-Z][A-Z0-9_]*>`. -/
theorem findPh_shape (s : Str) :
    ∀ tok ∈ findPh s, ∃ (c : Char) (run : Str),
      tok = '<' :: c :: (run ++ ['>']) ∧ isUpperAZ c = true ∧
      run.all isPhChar = true := by
  induction s with
  | nil => intro tok h; simp [findPh] at h
  | cons c cs ih =>
    intro tok h
    rw [findPh] at h
    rcases List.mem_append.mp h with h1 | h2
    · rcases hph : phAt cs with _ | t
      · rw [hph] at h1
        simp at h1
      · rw [hph] at h1
        by_cases hc : c = '<'
        · rw [if_pos hc] at h1
          simp only [Option.toList_some, List.mem_singleton] at h1
          subst h1
          rcases cs with _ | ⟨d, ds⟩
          · simp [phAt] at hph
          · rw [phAt] at hph
            by_cases hu : isUpperAZ d = true
            · rw [if_pos hu] at hph
              split at hph
              · simp only [Option.some.injEq] at hph
                exact ⟨d, ds.takeWhile isPhChar, hph.symm, hu,
                  List.all_eq_true.mpr (fun x hx => List.mem_takeWhile_imp hx)⟩
              · simp at hph
            · rw [if_neg hu] at hph
              simp at hph
        · rw [if_neg hc] at h1
          simp at h1
    · exact ih tok h2

/-- Claim C7: `detect_placeholders` returns one entry per distinct token in
first-occurrence order (the token list equals the spec-side first-occurrence
deduplication of all matches, is duplicate-free, membership-complete, and a
sublist of the match list), every match fits the pattern `<` + upper-case
letter + letters/digits/underscores + `>`, and each entry's meaning is
derived from its token by `meaningOf` (strip delimiters, lower-case,
underscores to spaces, then the table/column/generic dispatch). -/
theorem claim_C7 (s : Str) :
    detect_placeholders s =
      (specDedup (findPh s)).map (fun t => { token := t, meaning := meaningOf t })
    ∧ ((detect_placeholders s).map Placeholder.token).Nodup
    ∧ (∀ x : Str, x ∈ (detect_placeholders s).map Placeholder.token ↔ x ∈ findPh s)
    ∧ List.Sublist ((detect_placeholders s).map Placeholder.token) (findPh s)
    ∧ (∀ tok ∈ findPh s, ∃ (c : Char) (run : Str),
        tok = '<' :: c :: (run ++ ['>']) ∧ isUpperAZ c = true ∧
        run.all isPhChar = true)
    ∧ (∀ p ∈ detect_placeholders s, p.meaning = meaningOf p.token) := by
  have hbase : dedupeAux [] (findPh s) = specDedup (findPh s) := by
    rw [dedupeAux_eq_specDedup]
    congr 1
    exact List.filter_eq_self.mpr (fun a _ => by simp)
  have htok : (detect_placeholders s).map Placeholder.token = specDedup (findPh s) := by
    rw [detect_placeholders, hbase, List.map_map]
    exact List.map_id'' (fun x => rfl) _
  obtain ⟨hnd, hmem, hsub⟩ := specDedup_props (findPh s)
  refine ⟨by rw [detect_placeholders, hbase], ?_, ?_, ?_, findPh_shape s, ?_⟩
  · rw [htok]; exact hnd
  · intro x; rw [htok]; exact hmem x
  · rw [htok]; exact hsub
  · intro p hp
    rw [detect_placeholders] at hp
    obtain ⟨t, _, ht⟩ := List.mem_map.mp hp
    rw [← ht]

/-- Witness for C7: a concrete token found by the scan has the documented
shape. -/
theorem claim_C7_witness :
    ∃ (c : Char) (run : Str),
      "<USER_ID>".data = '<' :: c :: (run ++ ['>']) ∧ isUpperAZ c = true ∧
      run.all isPhChar = true :=
  (claim_C7 "SELECT <USER_ID>".data).2.2.2.2.1 "<USER_ID>".data (by decide)

/-- Helper: a filterMap that either skips or tags an element is a filter
followed by a map. -/
theorem filterMap_guard_eq {p : Str → Prop} [DecidablePred p] (f : Str → Str)
    (l : List Str) :
    (l.filterMap fun x => if p x then none else some (f x)) =
      (l.filter fun x => decide (¬p x)).map f := by
  induction l with
  | nil => rfl
  | cons a as ih =>
    by_cases h : p a
    · simp [List.filterMap_cons, List.filter_cons, h, ih]
    · simp [List.filterMap_cons, List.filter_cons, h, ih]

/-- Claim C8: `check_identifiers` only produces warnings: it emits one table
warning exactly for each input table name with no case-insensitive match
among the schema's table names, and one column warning exactly for each input
column name with no case-insensitive match in the union of all columns of
all tables; no column-to-table attribution is attempted, so a column name
present in any table never yields a warning.  The inputs are the identifier
sets produced by extraction, which are lower-cased (the hypotheses). -/
theorem claim_C8 (ids : Identifiers) (schema : SchemaContext)
    (hta : ∀ x ∈ ids.tables, pyLower x = x)
    (hco : ∀ x ∈ ids.columns, pyLower x = x) :
    (check_identifiers ids schema =
      (ids.tables.filter (fun tb =>
        decide (¬∃ t ∈ schema.tables, pyLower t.name = pyLower tb))).map
        (fun tb => "Table '".data ++ tb ++ "' not found in provided schema".data)
      ++ (ids.columns.filter (fun cn =>
        decide (¬∃ t ∈ schema.tables, ∃ col ∈ t.columns,
          pyLower col.name = pyLower cn))).map
        (fun cn => "Column '".data ++ cn ++ "' not found in provided schema".data))
    ∧ (∀ cn ∈ ids.columns,
      (∃ t ∈ schema.tables, ∃ col ∈ t.columns, pyLower col.name = pyLower cn) →
      ("Column '".data ++ cn ++ "' not found in provided schema".data) ∉
        check_identifiers ids schema) := by
  have hmain : check_identifiers ids schema =
      (ids.tables.filter (fun tb =>
        decide (¬∃ t ∈ schema.tables, pyLower t.name = pyLower tb))).map
        (fun tb => "Table '".data ++ tb ++ "' not found in provided schema".data)
      ++ (ids.columns.filter (fun cn =>
        decide (¬∃ t ∈ schema.tables, ∃ col ∈ t.columns,
          pyLower col.name = pyLower cn))).map
        (fun cn => "Column '".data ++ cn ++ "' not found in provided schema".data) := by
    simp only [check_identifiers]
    rw [filterMap_guard_eq, filterMap_guard_eq]
    congr 1
    · congr 1
      apply List.filter_congr
      intro tb htb
      rw [hta tb htb]
      apply decide_eq_decide.mpr
      constructor
      · intro hn hex
        obtain ⟨t, ht, hteq⟩ := hex
        exact hn (List.mem_map.mpr ⟨t, ht, hteq⟩)
      · intro hn hmem
        obtain ⟨t, ht, hteq⟩ := List.mem_map.mp hmem
        exact hn ⟨t, ht, hteq⟩
    · congr 1
      apply List.filter_congr
      intro cn hcn
      rw [hco cn hcn]
      apply decide_eq_decide.mpr
      constructor
      · intro hn hex
        obtain ⟨t, ht, col, hcol, heq⟩ := hex
        refine hn (List.mem_flatten.mpr ⟨t.columns.map (fun c => pyLower c.name), ?_, ?_⟩)
        · exact List.mem_map.mpr ⟨t, ht, rfl⟩
        · exact List.mem_map.mpr ⟨col, hcol, heq⟩
      · intro hn hmem
        obtain ⟨l, hl, hcl⟩ := List.mem_flatten.mp hmem
        obtain ⟨t, ht, hteq⟩ := List.mem_map.mp hl
        obtain ⟨col, hcol, hceq⟩ := List.mem_map.mp (hteq ▸ hcl)
        exact hn ⟨t, ht, col, hcol, hceq⟩
  refine ⟨hmain, ?_⟩
  intro cn hcn hex hmem
  rw [hmain] at hmem
  rcases List.mem_append.mp hmem with hmt | hmc
  · obtain ⟨tb, _, heq⟩ := List.mem_map.mp hmt
    simp at heq
  · obtain ⟨cn', hcn', heq⟩ := List.mem_map.mp hmc
    have hinj : cn' = cn := by simpa using heq
    subst hinj
    have := (List.mem_filter.mp hcn').2
    rw [decide_eq_true_iff] at this
    exact this hex

/-- Witness for C8: a column present in some table of the schema (in a
different case) produces no warning. -/
theorem claim_C8_witness :
    ("Column '".data ++ "name".data ++ "' not found in provided schema".data) ∉
      check_identifiers ⟨["users".data], ["name".data]⟩
        ⟨[⟨"Users".data, [⟨"Name".data, none, none, false, none⟩], none⟩]⟩ :=
  (claim_C8 ⟨["users".data], ["name".data]⟩
      ⟨[⟨"Users".data, [⟨"Name".data, none, none, false, none⟩], none⟩]⟩
      (by decide) (by decide)).2 "name".data (by decide)
    ⟨⟨"Users".data, [⟨"Name".data, none, none, false, none⟩], none⟩, by decide,
      ⟨"Name".data, none, none, false, none⟩, by decide, by decide⟩

/-- Helper: digits are word characters. -/
theorem isWordChar_of_digit {c : Char} (h : c.isDigit = true) : isWordChar c = true := by
  simp [isWordChar, h]

/-- Helper: whitespace characters are not digits. -/
theorem not_digit_of_isPySpace {c : Char} (h : isPySpace c = true) : c.isDigit = false := by
  simp only [isPySpace, Bool.or_eq_true, decide_eq_true_eq] at h
  rcases h with ((((h | h) | h) | h) | h) | h <;> subst h <;> decide

/-- Helper: whitespace characters are not word characters. -/
theorem not_word_of_isPySpace {c : Char} (h : isPySpace c = true) : isWordChar c = false := by
  simp only [isPySpace, Bool.or_eq_true, decide_eq_true_eq] at h
  rcases h with ((((h | h) | h) | h) | h) | h <;> subst h <;> decide

/-- Helper: digits are not whitespace. -/
theorem not_isPySpace_of_digit {c : Char} (h : c.isDigit = true) : isPySpace c = false := by
  rcases hsp : isPySpace c with _ | _
  · rfl
  · rw [not_digit_of_isPySpace hsp] at h
    exact absurd h (by simp)

/-- Helper: non-word characters are not digits. -/
theorem not_digit_of_not_word {c : Char} (h : isWordChar c = false) : c.isDigit = false := by
  rcases hd : c.isDigit with _ | _
  · rfl
  · rw [isWordChar_of_digit hd] at h
    exact absurd h (by simp)

/-- Helper: a case-insensitive LIMIT keyword letter is a word character,
not whitespace and not a digit. -/
theorem ciIs_classes {u c : Char} (hu : u = 'L' ∨ u = 'I' ∨ u = 'M' ∨ u = 'T')
    (h : ciIs u c = true) :
    isWordChar c = true ∧ isPySpace c = false ∧ c.isDigit = false := by
  simp only [ciIs, Bool.or_eq_true, decide_eq_true_eq] at h
  rcases hu with hu | hu | hu | hu <;> subst hu <;>
    rcases h with h | h <;> subst h <;> refine ⟨by decide, by decide, by decide⟩

/-- Helper: `digitChar` produces a digit character. -/
theorem digitChar_isDigit (n : Nat) : (digitChar n).isDigit = true := by
  unfold digitChar
  split_ifs <;> decide

/-- Helper: the code point of `digitChar n` for `n < 10`. -/
theorem digitChar_toNat {n : Nat} (h : n < 10) : (digitChar n).toNat = 48 + n := by
  unfold digitChar
  split_ifs with h0 h1 h2 h3 h4 h5 h6 h7 h8
  · subst h0; decide
  · subst h1; decide
  · subst h2; decide
  · subst h3; decide
  · subst h4; decide
  · subst h5; decide
  · subst h6; decide
  · subst h7; decide
  · subst h8; decide
  · have h9 : n = 9 := by omega
    subst h9; decide

/-- Helper: the fuel argument of `natDigitsAux` is irrelevant above `n`. -/
theorem natDigitsAux_irrel (f1 : Nat) : ∀ (f2 n : Nat), n < f1 → n < f2 →
    natDigitsAux f1 n = natDigitsAux f2 n := by
  induction f1 with
  | zero => intro f2 n h1 h2; omega
  | succ f ih =>
    intro f2 n h1 h2
    rcases f2 with _ | f2'
    · omega
    · rw [natDigitsAux, natDigitsAux]
      by_cases hn : n < 10
      · rw [if_pos hn, if_pos hn]
      · rw [if_neg hn, if_neg hn]
        have hd : n / 10 < n := Nat.div_lt_self (by omega) (by omega)
        rw [ih f2' (n / 10) (by omega) (by omega)]

/-- Helper: unfolding `natDigits` below ten. -/
theorem natDigits_small {n : Nat} (h : n < 10) : natDigits n = [digitChar n] := by
  rw [natDigits, natDigitsAux, if_pos h]

/-- Helper: unfolding `natDigits` at ten or above. -/
theorem natDigits_big {n : Nat} (h : ¬n < 10) :
    natDigits n = natDigits (n / 10) ++ [digitChar (n % 10)] := by
  rw [natDigits, natDigitsAux, if_neg h, natDigits]
  have hd : n / 10 < n := Nat.div_lt_self (by omega) (by omega)
  rw [natDigitsAux_irrel n (n / 10 + 1) (n / 10) hd (by omega)]

/-- Helper: a decimal representation is never empty. -/
theorem natDigits_ne_nil (n : Nat) : natDigits n ≠ [] := by
  by_cases h : n < 10
  · rw [natDigits_small h]; simp
  · rw [natDigits_big h]; simp

/-- Helper: a decimal representation consists of digit characters. -/
theorem natDigits_all_digit (n : Nat) : (natDigits n).all Char.isDigit = true := by
  induction n using Nat.strong_induction_on with
  | _ n ih =>
    by_cases h : n < 10
    · rw [natDigits_small h]
      simp [digitChar_isDigit]
    · rw [natDigits_big h, List.all_append]
      have hd : n / 10 < n := Nat.div_lt_self (by omega) (by omega)
      simp [ih (n / 10) hd, digitChar_isDigit]

/-- Helper: `digitsVal` after appending one digit character. -/
theorem digitsVal_append (l : Str) (c : Char) :
    digitsVal (l ++ [c]) = 10 * digitsVal l + (c.toNat - 48) := by
  simp [digitsVal, List.foldl_append]

/-- Helper: parsing the decimal representation gives back the number
(Python `int(str(n)) == n`). -/
theorem digitsVal_natDigits (n : Nat) : digitsVal (natDigits n) = n := by
  induction n using Nat.strong_induction_on with
  | _ n ih =>
    by_cases h : n < 10
    · rw [natDigits_small h]
      simp [digitsVal, digitChar_toNat h]
    · rw [natDigits_big h, digitsVal_append]
      have hd : n / 10 < n := Nat.div_lt_self (by omega) (by omega)
      rw [ih (n / 10) hd, digitChar_toNat (Nat.mod_lt n (by omega))]
      omega

/-- Helper: the last digit of a non-empty digit group is a word character. -/
theorem isWordChar_getLastD_digits {ds : Str} (h1 : ds ≠ [])
    (h2 : ds.all Char.isDigit = true) : isWordChar (ds.getLastD '0') = true := by
  apply isWordChar_of_digit
  have hmem : ds.getLastD '0' ∈ ds := by
    rw [List.getLastD_eq_getLast?, List.getLast?_eq_getLast ds h1]
    exact List.getLast_mem h1
  exact List.all_eq_true.mp h2 _ hmem

/-- Helper: case analysis on the trailing word boundary. -/
theorem headNW_cases {r : Str} (h : headNW r = true) :
    r = [] ∨ ∃ c cs, r = c :: cs ∧ isWordChar c = false := by
  rcases r with _ | ⟨c, cs⟩
  · exact Or.inl rfl
  · refine Or.inr ⟨c, cs, rfl, ?_⟩
    simpa [headNW] using h

/-- Helper: the LIMIT match attempt succeeds exactly on the declarative
match shape with a satisfied leading word boundary. -/
theorem limitMatchAt_iff (p : Option Char) (v ds r : Str) :
    limitMatchAt p v = some (ds, r) ↔ bOK p = true ∧ matchShape ds r v := by
  constructor
  · intro h
    rcases v with _ | ⟨a1, _ | ⟨a2, _ | ⟨a3, _ | ⟨a4, _ | ⟨a5, rest⟩⟩⟩⟩⟩
    · simp [limitMatchAt] at h
    · simp [limitMatchAt] at h
    · simp [limitMatchAt] at h
    · simp [limitMatchAt] at h
    · simp [limitMatchAt] at h
    · simp only [limitMatchAt] at h
      by_cases h1 : (bOK p && kwOK a1 a2 a3 a4 a5) = true
      · rw [if_pos h1] at h
        by_cases h2 : rest.takeWhile isPySpace ≠ [] ∧
            (rest.dropWhile isPySpace).takeWhile Char.isDigit ≠ [] ∧
            headNW ((rest.dropWhile isPySpace).dropWhile Char.isDigit) = true
        · rw [if_pos h2] at h
          simp only [Option.some.injEq, Prod.mk.injEq] at h
          obtain ⟨hds, hr⟩ := h
          have h1' := h1
          rw [Bool.and_eq_true] at h1'
          obtain ⟨hb, hkw⟩ := h1' 
          refine ⟨hb, a1, a2, a3, a4, a5, rest.takeWhile isPySpace, hkw, h2.1, ?_,
            hds ▸ h2.2.1, ?_, hr ▸ h2.2.2, ?_⟩
          · exact List.all_eq_true.mpr (fun x hx => List.mem_takeWhile_imp hx)
          · rw [← hds]
            exact List.all_eq_true.mpr (fun x hx => List.mem_takeWhile_imp hx)
          · rw [← hds, ← hr, List.append_assoc, List.takeWhile_append_dropWhile,
              List.takeWhile_append_dropWhile]
        · rw [if_neg h2] at h; exact absurd h (by simp)
      · rw [if_neg h1] at h; exact absurd h (by simp)
  · rintro ⟨hb, k1, k2, k3, k4, k5, sp, hkw, hsp, hspa, hds, hdsa, hr, rfl⟩
    obtain ⟨d0, ds', rfl⟩ := List.exists_cons_of_ne_nil hds
    have hd0 : Char.isDigit d0 = true := by
      have := List.all_eq_true.mp hdsa d0 (by simp)
      exact this
    have htw : (sp ++ (d0 :: ds') ++ r).takeWhile isPySpace = sp := by
      rw [List.append_assoc, takeWhile_append_of_all hspa, List.cons_append,
        List.takeWhile_cons, not_isPySpace_of_digit hd0]
      simp
    have hdw : (sp ++ (d0 :: ds') ++ r).dropWhile isPySpace = (d0 :: ds') ++ r := by
      rw [List.append_assoc, dropWhile_append_of_all hspa, List.cons_append,
        List.dropWhile_cons, not_isPySpace_of_digit hd0]
      simp
    have htwd : ((d0 :: ds') ++ r).takeWhile Char.isDigit = d0 :: ds' := by
      rw [takeWhile_append_of_all hdsa]
      rcases headNW_cases hr with rfl | ⟨c, cs, rfl, hc⟩
      · simp
      · rw [List.takeWhile_cons, not_digit_of_not_word hc]
        simp
    have hdwd : ((d0 :: ds') ++ r).dropWhile Char.isDigit = r := by
      rw [dropWhile_append_of_all hdsa]
      rcases headNW_cases hr with rfl | ⟨c, cs, rfl, hc⟩
      · simp
      · rw [List.dropWhile_cons, not_digit_of_not_word hc]
        simp
    simp only [limitMatchAt, hb, hkw, Bool.and_self, if_pos, htw, hdw, htwd, hdwd]
    rw [if_pos (by refine ⟨hsp, by simp, hr⟩)]

/-- Helper: the scan of the empty text finds nothing. -/
theorem searchLimit_nil (p : Option Char) : searchLimit p [] = none := rfl

/-- Helper: inversion of a successful scan on a cons cell. -/
theorem searchLimit_cons_some_inv {p : Option Char} {c : Char} {cs b ds r : Str}
    (h : searchLimit p (c :: cs) = some (b, ds, r)) :
    (b = [] ∧ limitMatchAt p (c :: cs) = some (ds, r)) ∨
    (∃ b', b = c :: b' ∧ limitMatchAt p (c :: cs) = none ∧
      searchLimit (some c) cs = some (b', ds, r)) := by
  rw [searchLimit] at h
  rcases hm : limitMatchAt p (c :: cs) with _ | ⟨ds', r'⟩
  · rw [hm] at h
    rcases hs : searchLimit (some c) cs with _ | ⟨b2, ds2, r2⟩
    · rw [hs] at h; exact absurd h (by simp)
    · rw [hs] at h
      simp only [Option.some.injEq, Prod.mk.injEq] at h
      obtain ⟨hb, hds, hr⟩ := h
      subst hds
      subst hr
      exact Or.inr ⟨b2, hb.symm, rfl, rfl⟩
  · rw [hm] at h
    simp only [Option.some.injEq, Prod.mk.injEq] at h
    obtain ⟨hb, hds, hr⟩ := h
    subst hds
    subst hr
    exact Or.inl ⟨hb.symm, rfl⟩

/-- Helper: inversion of a failed scan on a cons cell. -/
theorem searchLimit_cons_none_inv {p : Option Char} {c : Char} {cs : Str}
    (h : searchLimit p (c :: cs) = none) :
    limitMatchAt p (c :: cs) = none ∧ searchLimit (some c) cs = none := by
  rw [searchLimit] at h
  rcases hm : limitMatchAt p (c :: cs) with _ | ⟨ds', r'⟩
  · rw [hm] at h
    rcases hs : searchLimit (some c) cs with _ | ⟨b2, ds2, r2⟩
    · exact ⟨rfl, rfl⟩
    · rw [hs] at h; exact absurd h (by simp)
  · rw [hm] at h; exact absurd h (by simp)

/-- Helper: a head match makes the scan succeed immediately. -/
theorem searchLimit_build_match {p : Option Char} {c : Char} {cs ds r : Str}
    (h : limitMatchAt p (c :: cs) = some (ds, r)) :
    searchLimit p (c :: cs) = some ([], ds, r) := by
  rw [searchLimit, h]

/-- Helper: a failed head attempt defers to the scan of the tail. -/
theorem searchLimit_build_step {p : Option Char} {c : Char} {cs b ds r : Str}
    (h1 : limitMatchAt p (c :: cs) = none)
    (h2 : searchLimit (some c) cs = some (b, ds, r)) :
    searchLimit p (c :: cs) = some (c :: b, ds, r) := by
  rw [searchLimit, h1, h2]

/-- Helper: a failed head attempt and a failed tail scan fail together. -/
theorem searchLimit_build_none {p : Option Char} {c : Char} {cs : Str}
    (h1 : limitMatchAt p (c :: cs) = none)
    (h2 : searchLimit (some c) cs = none) :
    searchLimit p (c :: cs) = none := by
  rw [searchLimit, h1, h2]

/-- Helper: a successful scan decomposes the text as the unmatched prefix
followed by a matching region. -/
theorem searchLimit_shape :
    ∀ (s : Str) (p : Option Char) (b ds r : Str),
      searchLimit p s = some (b, ds, r) → ∃ v, s = b ++ v ∧ matchShape ds r v := by
  intro s
  induction s with
  | nil => intro p b ds r h; simp [searchLimit] at h
  | cons c cs ih =>
    intro p b ds r h
    rcases searchLimit_cons_some_inv h with ⟨hb, hm⟩ | ⟨b', hb, hm, hs⟩
    · obtain ⟨hbok, hshape⟩ := (limitMatchAt_iff p (c :: cs) ds r).mp hm
      exact ⟨c :: cs, by rw [hb]; rfl, hshape⟩
    · obtain ⟨v, hv, hshape⟩ := ih (some c) b' ds r hs
      exact ⟨v, by rw [hb, List.cons_append, hv], hshape⟩

/-- Helper: an attempt whose first character cannot open the LIMIT keyword
fails. -/
theorem limitMatchAt_not_L {p : Option Char} {c : Char} {l : Str}
    (hc : ciIs 'L' c = false) : limitMatchAt p (c :: l) = none := by
  rcases l with _ | ⟨x1, _ | ⟨x2, _ | ⟨x3, _ | ⟨x4, rest⟩⟩⟩⟩ <;>
    simp [limitMatchAt, kwOK, hc]

/-- Helper (failure transfer, clamp case): replacing a matching region by
the canonical replacement text cannot create a match at any earlier
position.  `u` is the text between the attempt position and the start of
the original match. -/
theorem noMatch_transfer_clamp
    (k1 k2 k3 k4 k5 : Char) (spo dso rest D X : Str)
    (hkw : kwOK k1 k2 k3 k4 k5 = true) (hsp : spo ≠ [])
    (hspa : spo.all isPySpace = true) (hds : dso ≠ [])
    (hdsa : dso.all Char.isDigit = true) (hrr : headNW rest = true)
    (u : Str) (p : Option Char)
    (hnone : limitMatchAt p
      (u ++ (k1 :: k2 :: k3 :: k4 :: k5 :: (spo ++ dso ++ rest))) = none) :
    limitMatchAt p (u ++ ('L' :: 'I' :: 'M' :: 'I' :: 'T' :: ' ' :: (D ++ X))) = none := by
  rcases hopt : limitMatchAt p
      (u ++ ('L' :: 'I' :: 'M' :: 'I' :: 'T' :: ' ' :: (D ++ X))) with _ | ⟨ds0, r0⟩
  · rfl
  exfalso
  rw [limitMatchAt_iff] at hopt
  obtain ⟨hbok, m1, m2, m3, m4, m5, sp, hkw0, hsp0, hspa0, hds0, hdsa0, hr0t, heq⟩ := hopt
  rcases u with _ | ⟨a1, _ | ⟨a2, _ | ⟨a3, _ | ⟨a4, _ | ⟨a5, u5⟩⟩⟩⟩⟩
  · have horig : limitMatchAt p
        ([] ++ (k1 :: k2 :: k3 :: k4 :: k5 :: (spo ++ dso ++ rest))) = some (dso, rest) := by
      rw [List.nil_append]
      exact (limitMatchAt_iff p _ dso rest).mpr
        ⟨hbok, k1, k2, k3, k4, k5, spo, hkw, hsp, hspa, hds, hdsa, hrr, rfl⟩
    rw [horig] at hnone
    exact absurd hnone (by simp)
  · simp only [List.cons_append, List.nil_append, List.cons.injEq] at heq
    simp only [kwOK, Bool.and_eq_true] at hkw0
    rw [← heq.2.1] at hkw0
    exact absurd hkw0.1.1.1.2 (by decide)
  · simp only [List.cons_append, List.nil_append, List.cons.injEq] at heq
    simp only [kwOK, Bool.and_eq_true] at hkw0
    rw [← heq.2.2.1] at hkw0
    exact absurd hkw0.1.1.2 (by decide)
  · simp only [List.cons_append, List.nil_append, List.cons.injEq] at heq
    simp only [kwOK, Bool.and_eq_true] at hkw0
    rw [← heq.2.2.2.1] at hkw0
    exact absurd hkw0.1.2 (by decide)
  · simp only [List.cons_append, List.nil_append, List.cons.injEq] at heq
    simp only [kwOK, Bool.and_eq_true] at hkw0
    rw [← heq.2.2.2.2.1] at hkw0
    exact absurd hkw0.2 (by decide)
  · simp only [List.cons_append, List.cons.injEq] at heq
    obtain ⟨he1, he2, he3, he4, he5, heq5⟩ := heq
    rw [List.append_assoc] at heq5
    rcases List.append_eq_append_iff.mp heq5.symm with ⟨t, hu5, hbr⟩ | ⟨t, hsp', hvN⟩
    · rcases List.append_eq_append_iff.mp hbr with ⟨q, ht_eq, hrq⟩ | ⟨q, hds0', hvN'⟩
      · rcases q with _ | ⟨q0, qs⟩
        · simp only [List.nil_append] at hrq
          rw [hrq] at hr0t
          have hfalse : headNW ('L' :: 'I' :: 'M' :: 'I' :: 'T' :: ' ' :: (D ++ X)) =
              false := rfl
          rw [hfalse] at hr0t
          exact absurd hr0t (by simp)
        · have horig : limitMatchAt p
              ((a1 :: a2 :: a3 :: a4 :: a5 :: u5) ++
                (k1 :: k2 :: k3 :: k4 :: k5 :: (spo ++ dso ++ rest))) =
              some (ds0, (q0 :: qs) ++ (k1 :: k2 :: k3 :: k4 :: k5 ::
                (spo ++ dso ++ rest))) := by
            apply (limitMatchAt_iff _ _ _ _).mpr
            refine ⟨hbok, a1, a2, a3, a4, a5, sp, ?_, hsp0, hspa0, hds0, hdsa0, ?_, ?_⟩
            · rw [he1, he2, he3, he4, he5]; exact hkw0
            · rw [hrq] at hr0t
              exact hr0t
            · simp only [List.cons_append, List.cons.injEq, true_and]
              rw [hu5, ht_eq]
              simp [List.append_assoc]
          rw [horig] at hnone
          exact absurd hnone (by simp)
      · rcases q with _ | ⟨q0, qs⟩
        · simp only [List.nil_append] at hvN'
          rw [← hvN'] at hr0t
          have hfalse : headNW ('L' :: 'I' :: 'M' :: 'I' :: 'T' :: ' ' :: (D ++ X)) =
              false := rfl
          rw [hfalse] at hr0t
          exact absurd hr0t (by simp)
        · have hq0 : q0.isDigit = true :=
            List.all_eq_true.mp hdsa0 q0 (by rw [hds0']; simp)
          simp only [List.cons_append, List.cons.injEq] at hvN'
          rw [← hvN'.1] at hq0
          exact absurd hq0 (by decide)
    · rcases t with _ | ⟨t0, ts⟩
      · simp only [List.nil_append] at hvN
        obtain ⟨d0, ds0', hds0eq⟩ := List.exists_cons_of_ne_nil hds0
        rw [hds0eq] at hvN
        simp only [List.cons_append, List.cons.injEq] at hvN
        have hd0 : d0.isDigit = true :=
          List.all_eq_true.mp hdsa0 d0 (by rw [hds0eq]; simp)
        rw [← hvN.1] at hd0
        exact absurd hd0 (by decide)
      · simp only [List.cons_append, List.cons.injEq] at hvN
        have ht0 : isPySpace t0 = true :=
          List.all_eq_true.mp hspa0 t0 (by rw [hsp']; simp)
        rw [← hvN.1] at ht0
        exact absurd ht0 (by decide)

/-- Helper (failure transfer, append case): appending ` LIMIT <n>` to a
match-free text in place of its boundary-satisfying suffix `V` cannot create
a match at an earlier position. -/
theorem noMatch_transfer_app
    (V D tl : Str) (hV : headNW V = true)
    (u : Str) (p : Option Char)
    (hnone : limitMatchAt p (u ++ V) = none) :
    limitMatchAt p
      (u ++ (' ' :: 'L' :: 'I' :: 'M' :: 'I' :: 'T' :: ' ' :: (D ++ tl))) = none := by
  rcases hopt : limitMatchAt p
      (u ++ (' ' :: 'L' :: 'I' :: 'M' :: 'I' :: 'T' :: ' ' :: (D ++ tl))) with _ | ⟨ds0, r0⟩
  · rfl
  exfalso
  rw [limitMatchAt_iff] at hopt
  obtain ⟨hbok, m1, m2, m3, m4, m5, sp, hkw0, hsp0, hspa0, hds0, hdsa0, hr0t, heq⟩ := hopt
  rcases u with _ | ⟨a1, _ | ⟨a2, _ | ⟨a3, _ | ⟨a4, _ | ⟨a5, u5⟩⟩⟩⟩⟩
  · simp only [List.nil_append, List.cons.injEq] at heq
    simp only [kwOK, Bool.and_eq_true] at hkw0
    rw [← heq.1] at hkw0
    exact absurd hkw0.1.1.1.1 (by decide)
  · simp only [List.cons_append, List.nil_append, List.cons.injEq] at heq
    simp only [kwOK, Bool.and_eq_true] at hkw0
    rw [← heq.2.1] at hkw0
    exact absurd hkw0.1.1.1.2 (by decide)
  · simp only [List.cons_append, List.nil_append, List.cons.injEq] at heq
    simp only [kwOK, Bool.and_eq_true] at hkw0
    rw [← heq.2.2.1] at hkw0
    exact absurd hkw0.1.1.2 (by decide)
  · simp only [List.cons_append, List.nil_append, List.cons.injEq] at heq
    simp only [kwOK, Bool.and_eq_true] at hkw0
    rw [← heq.2.2.2.1] at hkw0
    exact absurd hkw0.1.2 (by decide)
  · simp only [List.cons_append, List.nil_append, List.cons.injEq] at heq
    simp only [kwOK, Bool.and_eq_true] at hkw0
    rw [← heq.2.2.2.2.1] at hkw0
    exact absurd hkw0.2 (by decide)
  · simp only [List.cons_append, List.cons.injEq] at heq
    obtain ⟨he1, he2, he3, he4, he5, heq5⟩ := heq
    rw [List.append_assoc] at heq5
    rcases List.append_eq_append_iff.mp heq5.symm with ⟨t, hu5, hbr⟩ | ⟨t, hsp', hvN⟩
    · rcases List.append_eq_append_iff.mp hbr with ⟨q, ht_eq, hrq⟩ | ⟨q, hds0', hvN'⟩
      · have horig : limitMatchAt p ((a1 :: a2 :: a3 :: a4 :: a5 :: u5) ++ V) =
            some (ds0, q ++ V) := by
          apply (limitMatchAt_iff _ _ _ _).mpr
          refine ⟨hbok, a1, a2, a3, a4, a5, sp, ?_, hsp0, hspa0, hds0, hdsa0, ?_, ?_⟩
          · rw [he1, he2, he3, he4, he5]; exact hkw0
          · rcases q with _ | ⟨q0, qs⟩
            · simpa using hV
            · rw [hrq] at hr0t
              exact hr0t
          · simp only [List.cons_append, List.cons.injEq, true_and]
            rw [hu5, ht_eq]
            simp [List.append_assoc]
        rw [horig] at hnone
        exact absurd hnone (by simp)
      · rcases q with _ | ⟨q0, qs⟩
        · have horig : limitMatchAt p ((a1 :: a2 :: a3 :: a4 :: a5 :: u5) ++ V) =
              some (ds0, V) := by
            apply (limitMatchAt_iff _ _ _ _).mpr
            refine ⟨hbok, a1, a2, a3, a4, a5, sp, ?_, hsp0, hspa0, hds0, hdsa0, hV, ?_⟩
            · rw [he1, he2, he3, he4, he5]; exact hkw0
            · simp only [List.cons_append, List.cons.injEq, true_and]
              rw [hu5, hds0']
              simp [List.append_assoc]
          rw [horig] at hnone
          exact absurd hnone (by simp)
        · have hq0 : q0.isDigit = true :=
            List.all_eq_true.mp hdsa0 q0 (by rw [hds0']; simp)
          simp only [List.cons_append, List.cons.injEq] at hvN'
          rw [← hvN'.1] at hq0
          exact absurd hq0 (by decide)
    · rcases t with _ | ⟨t0, ts⟩
      · simp only [List.nil_append] at hvN
        obtain ⟨d0, ds0', hds0eq⟩ := List.exists_cons_of_ne_nil hds0
        rw [hds0eq] at hvN
        simp only [List.cons_append, List.cons.injEq] at hvN
        have hd0 : d0.isDigit = true :=
          List.all_eq_true.mp hdsa0 d0 (by rw [hds0eq]; simp)
        rw [← hvN.1] at hd0
        exact absurd hd0 (by decide)
      · simp only [List.cons_append, List.cons.injEq] at hvN
        obtain ⟨ht0eq, hvrest⟩ := hvN
        rcases ts with _ | ⟨t1, ts'⟩
        · simp only [List.nil_append] at hvrest
          obtain ⟨d0, ds0', hds0eq⟩ := List.exists_cons_of_ne_nil hds0
          rw [hds0eq] at hvrest
          simp only [List.cons_append, List.cons.injEq] at hvrest
          have hd0 : d0.isDigit = true :=
            List.all_eq_true.mp hdsa0 d0 (by rw [hds0eq]; simp)
          rw [← hvrest.1] at hd0
          exact absurd hd0 (by decide)
        · simp only [List.cons_append, List.cons.injEq] at hvrest
          have ht1 : isPySpace t1 = true :=
            List.all_eq_true.mp hspa0 t1 (by rw [hsp']; simp)
          rw [← hvrest.1] at ht1
          exact absurd ht1 (by decide)

/-- Helper (scan transfer, clamp case): if the scan finds its first match
right after the prefix `u`, then on the text with that match replaced by the
canonical replacement the scan finds the replacement right after `u`. -/
theorem searchScan_clamp
    (k1 k2 k3 k4 k5 : Char) (spo dso rest D X : Str)
    (hkw : kwOK k1 k2 k3 k4 k5 = true) (hsp : spo ≠ [])
    (hspa : spo.all isPySpace = true) (hds : dso ≠ [])
    (hdsa : dso.all Char.isDigit = true) (hrr : headNW rest = true)
    (hdig : D ≠ []) (hdiga : D.all Char.isDigit = true) (hX : headNW X = true) :
    ∀ (u : Str) (p : Option Char),
      searchLimit p (u ++ (k1 :: k2 :: k3 :: k4 :: k5 :: (spo ++ dso ++ rest))) =
        some (u, dso, rest) →
      searchLimit p (u ++ ('L' :: 'I' :: 'M' :: 'I' :: 'T' :: ' ' :: (D ++ X))) =
        some (u, D, X) := by
  intro u
  induction u with
  | nil =>
    intro p h
    rw [List.nil_append] at h
    rw [List.nil_append]
    rcases searchLimit_cons_some_inv h with ⟨hb, hm⟩ | ⟨b', hb, _, _⟩
    · obtain ⟨hbok, -⟩ := (limitMatchAt_iff _ _ _ _).mp hm
      have hmN : limitMatchAt p ('L' :: 'I' :: 'M' :: 'I' :: 'T' :: ' ' :: (D ++ X)) =
          some (D, X) := by
        apply (limitMatchAt_iff _ _ _ _).mpr
        exact ⟨hbok, 'L', 'I', 'M', 'I', 'T', [' '], by decide, by simp, by decide,
          hdig, hdiga, hX, by simp⟩
      exact searchLimit_build_match hmN
    · exact absurd hb (by simp)
  | cons c u' ih =>
    intro p h
    rw [List.cons_append] at h
    rcases searchLimit_cons_some_inv h with ⟨hb, -⟩ | ⟨b', hb, hm, hs⟩
    · exact absurd hb (by simp)
    · have hb' : b' = u' := by
        simp only [List.cons.injEq] at hb
        exact hb.2.symm
      rw [hb'] at hs
      have hsN := ih (some c) hs
      have hmN : limitMatchAt p (c :: (u' ++
          ('L' :: 'I' :: 'M' :: 'I' :: 'T' :: ' ' :: (D ++ X)))) = none := by
        have := noMatch_transfer_clamp k1 k2 k3 k4 k5 spo dso rest D X
          hkw hsp hspa hds hdsa hrr (c :: u') p
          (by rw [List.cons_append]; exact hm)
        rw [List.cons_append] at this
        exact this
      rw [List.cons_append]
      exact searchLimit_build_step hmN hsN

/-- Helper (scan transfer, append case): appending ` LIMIT <digits>` in
place of the boundary-satisfying suffix `V` of a match-free text makes the
scan find exactly the appended clause. -/
theorem searchScan_app (V D tl : Str) (hV : headNW V = true) (hdig : D ≠ [])
    (hdiga : D.all Char.isDigit = true) (htl : headNW tl = true) :
    ∀ (u : Str) (p : Option Char),
      searchLimit p (u ++ V) = none →
      searchLimit p (u ++ (' ' :: 'L' :: 'I' :: 'M' :: 'I' :: 'T' :: ' ' :: (D ++ tl))) =
        some (u ++ [' '], D, tl) := by
  intro u
  induction u with
  | nil =>
    intro p h
    rw [List.nil_append] at h
    simp only [List.nil_append]
    have h1 : limitMatchAt p
        (' ' :: ('L' :: 'I' :: 'M' :: 'I' :: 'T' :: ' ' :: (D ++ tl))) = none :=
      limitMatchAt_not_L (by decide)
    have h2 : limitMatchAt (some ' ')
        ('L' :: 'I' :: 'M' :: 'I' :: 'T' :: (' ' :: (D ++ tl))) = some (D, tl) := by
      apply (limitMatchAt_iff _ _ _ _).mpr
      exact ⟨by decide, 'L', 'I', 'M', 'I', 'T', [' '], by decide, by simp, by decide,
        hdig, hdiga, htl, by simp⟩
    exact searchLimit_build_step h1 (searchLimit_build_match h2)
  | cons c u' ih =>
    intro p h
    rw [List.cons_append] at h
    obtain ⟨hm, hs⟩ := searchLimit_cons_none_inv h
    have hsN := ih (some c) hs
    have hmN : limitMatchAt p (c :: (u' ++
        (' ' :: 'L' :: 'I' :: 'M' :: 'I' :: 'T' :: ' ' :: (D ++ tl)))) = none := by
      have := noMatch_transfer_app V D tl hV (c :: u') p
        (by rw [List.cons_append]; exact hm)
      rw [List.cons_append] at this
      exact this
    rw [List.cons_append]
    have hres := searchLimit_build_step hmN hsN
    simpa using hres

/-- Helper: unfolding `subLimitAll` when the scan fails. -/
theorem subLimitAll_none {p : Option Char} {s : Str} (m : Nat)
    (h : searchLimit p s = none) : subLimitAll m p s = s := by
  rw [subLimitAll, h]

/-- Helper: unfolding `subLimitAll` when the scan succeeds. -/
theorem subLimitAll_some {p : Option Char} {s b ds r : Str} (m : Nat)
    (h : searchLimit p s = some (b, ds, r)) :
    subLimitAll m p s =
      b ++ limitRepl m ++ subLimitAll m (some (ds.getLastD '0')) r := by
  rw [subLimitAll, h]

/-- Helper: substitution after a word character preserves the leading
boundary state of the remainder. -/
theorem subLimitAll_headNW (m : Nat) (d : Char) (r : Str)
    (hd : isWordChar d = true) (hr : headNW r = true) :
    headNW (subLimitAll m (some d) r) = true := by
  rcases r with _ | ⟨c, cs⟩
  · rw [subLimitAll_none m (searchLimit_nil _)]
    rfl
  · rcases hs : searchLimit (some d) (c :: cs) with _ | ⟨b, ds, rr⟩
    · rw [subLimitAll_none m hs]
      exact hr
    · rcases searchLimit_cons_some_inv hs with ⟨-, hm⟩ | ⟨b', hb, -, -⟩
      · obtain ⟨hbok, -⟩ := (limitMatchAt_iff _ _ _ _).mp hm
        rw [bOK, hd] at hbok
        exact absurd hbok (by simp)
      · rw [subLimitAll_some m hs, hb]
        exact hr

/-- Helper: scanning the output of the substitution finds the first
replacement, whose digit group is the decimal representation of the
maximum. -/
theorem searchLimit_sub (m : Nat) {p : Option Char} {s b ds r : Str}
    (h : searchLimit p s = some (b, ds, r)) :
    searchLimit p (subLimitAll m p s) =
      some (b, natDigits m, subLimitAll m (some (ds.getLastD '0')) r) := by
  obtain ⟨v, hsv, hshape⟩ := searchLimit_shape s p b ds r h
  obtain ⟨k1, k2, k3, k4, k5, sp, hkw, hsp, hspa, hds, hdsa, hr, hveq⟩ := hshape
  have hXnw : headNW (subLimitAll m (some (ds.getLastD '0')) r) = true :=
    subLimitAll_headNW m _ r (isWordChar_getLastD_digits hds hdsa) hr
  have hsub : subLimitAll m p s =
      b ++ limitRepl m ++ subLimitAll m (some (ds.getLastD '0')) r :=
    subLimitAll_some m h
  have hform : b ++ limitRepl m ++ subLimitAll m (some (ds.getLastD '0')) r =
      b ++ ('L' :: 'I' :: 'M' :: 'I' :: 'T' :: ' ' ::
        (natDigits m ++ subLimitAll m (some (ds.getLastD '0')) r)) := by
    have hlit : "LIMIT ".data = ['L', 'I', 'M', 'I', 'T', ' '] := rfl
    rw [limitRepl, hlit, List.append_assoc]
    rfl
  have hstart : searchLimit p (b ++ (k1 :: k2 :: k3 :: k4 :: k5 ::
      (sp ++ ds ++ r))) = some (b, ds, r) := by
    rw [← hveq, ← hsv]
    exact h
  have := searchScan_clamp k1 k2 k3 k4 k5 sp ds r (natDigits m)
    (subLimitAll m (some (ds.getLastD '0')) r) hkw hsp hspa hds hdsa hr
    (natDigits_ne_nil m) (natDigits_all_digit m) hXnw b p hstart
  rw [hsub, hform]
  exact this

/-- Helper: every text splits as its rstrip followed by trailing
whitespace. -/
theorem pyRStrip_decomp (s : Str) :
    s = pyRStrip s ++ (s.reverse.takeWhile isPySpace).reverse ∧
    ((s.reverse.takeWhile isPySpace).reverse).all isPySpace = true := by
  constructor
  · conv_lhs => rw [← List.reverse_reverse s,
      ← List.takeWhile_append_dropWhile isPySpace s.reverse]
    rw [List.reverse_append]
    rfl
  · rw [List.all_eq_true]
    intro x hx
    rw [List.mem_reverse] at hx
    exact List.mem_takeWhile_imp hx

/-- Helper: a list whose last element is known splits off that element. -/
theorem eq_dropLast_append_of_getLast {l : Str} {c : Char}
    (h : l.getLast? = some c) : l = l.dropLast ++ [c] := by
  have hne : l ≠ [] := by intro he; subst he; simp at h
  rw [List.getLast?_eq_getLast l hne, Option.some.injEq] at h
  rw [← h]
  exact (List.dropLast_append_getLast hne).symm

/-- Helper: unfolding `enforce_limit` on read-only statement types. -/
theorem enforce_limit_ro {s : Str} {m : Nat} {t : StatementType}
    (hro : is_read_only_statement t = true) :
    enforce_limit s m t =
      match searchLimit none s with
      | some (_, ds, _) =>
        if digitsVal ds > m then (subLimitAll m none s, true) else (s, false)
      | none =>
        if (pyRStrip s).getLast? = some ';' then
          ((pyRStrip s).dropLast ++ (" LIMIT ".data ++ natDigits m) ++ [';'], true)
        else (pyRStrip s ++ (" LIMIT ".data ++ natDigits m), true) := by
  rw [enforce_limit, hro]
  rfl

/-- Helper: `enforce_limit` passes non-read-only statements through. -/
theorem enforce_limit_not_ro {s : Str} {m : Nat} {t : StatementType}
    (hro : is_read_only_statement t = false) :
    enforce_limit s m t = (s, false) := by
  rw [enforce_limit, hro]
  rfl

/-- Helper: `enforce_limit` on a read-only type when the scan finds a match. -/
theorem enforce_limit_ro_some {s : Str} {m : Nat} {t : StatementType}
    {b ds r : Str} (hro : is_read_only_statement t = true)
    (hs : searchLimit none s = some (b, ds, r)) :
    enforce_limit s m t =
      if digitsVal ds > m then (subLimitAll m none s, true) else (s, false) := by
  rw [enforce_limit_ro hro, hs]

/-- Helper: `enforce_limit` on a read-only type when the scan finds nothing. -/
theorem enforce_limit_ro_none {s : Str} {m : Nat} {t : StatementType}
    (hro : is_read_only_statement t = true)
    (hs : searchLimit none s = none) :
    enforce_limit s m t =
      if (pyRStrip s).getLast? = some ';' then
        ((pyRStrip s).dropLast ++ (" LIMIT ".data ++ natDigits m) ++ [';'], true)
      else (pyRStrip s ++ (" LIMIT ".data ++ natDigits m), true) := by
  rw [enforce_limit_ro hro, hs]

/-- Helper: an all-whitespace text satisfies the leading boundary. -/
theorem headNW_of_all_space {l : Str} (h : l.all isPySpace = true) :
    headNW l = true := by
  rcases l with _ | ⟨c, cs⟩
  · rfl
  · have hc : isPySpace c = true := List.all_eq_true.mp h c (by simp)
    simp [headNW, not_word_of_isPySpace hc]

/-- Claim C3: `enforce_limit` is idempotent: for every SQL string, maximum
limit above zero, and statement type, running it again on its own output
returns the same output with modified=false — no second LIMIT clause is ever
added and no further rewriting happens. -/
theorem claim_C3 (s : Str) (m : Nat) (t : StatementType) (hm : 0 < m)
    (s' : Str) (flag : Bool) (h : enforce_limit s m t = (s', flag)) :
    enforce_limit s' m t = (s', false) := by
  by_cases hro : is_read_only_statement t = true
  · rcases hs : searchLimit none s with _ | ⟨b, ds, r⟩
    · rw [enforce_limit_ro_none hro hs] at h
      obtain ⟨hdec, hWall⟩ := pyRStrip_decomp s
      by_cases hsemi : (pyRStrip s).getLast? = some ';'
      · rw [if_pos hsemi] at h
        simp only [Prod.mk.injEq] at h
        obtain ⟨hs', -⟩ := h
        have hss := eq_dropLast_append_of_getLast hsemi
        have hsdecomp : s = (pyRStrip s).dropLast ++
            (';' :: (s.reverse.takeWhile isPySpace).reverse) := by
          calc s = pyRStrip s ++ (s.reverse.takeWhile isPySpace).reverse := hdec
            _ = ((pyRStrip s).dropLast ++ [';']) ++
                (s.reverse.takeWhile isPySpace).reverse := by rw [← hss]
            _ = (pyRStrip s).dropLast ++
                (';' :: (s.reverse.takeWhile isPySpace).reverse) := by
              simp [List.append_assoc]
        have hnone2 : searchLimit none ((pyRStrip s).dropLast ++
            (';' :: (s.reverse.takeWhile isPySpace).reverse)) = none := by
          rw [← hsdecomp]
          exact hs
        have happ := searchScan_app
          (';' :: (s.reverse.takeWhile isPySpace).reverse) (natDigits m) [';']
          (by rfl) (natDigits_ne_nil m) (natDigits_all_digit m) (by rfl)
          ((pyRStrip s).dropLast) none hnone2
        have hs'eq : s' = (pyRStrip s).dropLast ++
            (' ' :: 'L' :: 'I' :: 'M' :: 'I' :: 'T' :: ' ' ::
              (natDigits m ++ [';'])) := by
          rw [← hs']
          simp [List.append_assoc]
        rw [← hs'eq] at happ
        rw [enforce_limit_ro_some hro happ, digitsVal_natDigits]
        exact if_neg (by omega)
      · rw [if_neg hsemi] at h
        simp only [Prod.mk.injEq] at h
        obtain ⟨hs', -⟩ := h
        have hnone2 : searchLimit none (pyRStrip s ++
            (s.reverse.takeWhile isPySpace).reverse) = none := by
          rw [← hdec]
          exact hs
        have happ := searchScan_app
          ((s.reverse.takeWhile isPySpace).reverse) (natDigits m) []
          (headNW_of_all_space hWall) (natDigits_ne_nil m) (natDigits_all_digit m)
          (by rfl) (pyRStrip s) none hnone2
        have hs'eq : s' = pyRStrip s ++
            (' ' :: 'L' :: 'I' :: 'M' :: 'I' :: 'T' :: ' ' ::
              (natDigits m ++ [])) := by
          rw [← hs']
          simp [List.append_assoc]
        rw [← hs'eq] at happ
        rw [enforce_limit_ro_some hro happ, digitsVal_natDigits]
        exact if_neg (by omega)
    · rw [enforce_limit_ro_some hro hs] at h
      by_cases hgt : digitsVal ds > m
      · rw [if_pos hgt] at h
        simp only [Prod.mk.injEq] at h
        obtain ⟨hs', -⟩ := h
        have hsub := searchLimit_sub m hs
        rw [hs'] at hsub
        rw [enforce_limit_ro_some hro hsub, digitsVal_natDigits]
        exact if_neg (by omega)
      · rw [if_neg hgt] at h
        simp only [Prod.mk.injEq] at h
        obtain ⟨hs', -⟩ := h
        rw [← hs']
        rw [enforce_limit_ro_some hro hs]
        exact if_neg hgt
  · have hro' : is_read_only_statement t = false := by
      rcases hb : is_read_only_statement t with _ | _
      · rfl
      · exact absurd hb hro
    rw [enforce_limit_not_ro hro'] at h
    simp only [Prod.mk.injEq] at h
    obtain ⟨hs', -⟩ := h
    rw [← hs']
    exact enforce_limit_not_ro hro'

/-- Witness for C3: a concrete run through the append branch, then the
theorem applied to it. -/
theorem claim_C3_witness :
    0 < 3 ∧ enforce_limit "SELECT 1 LIMIT 3".data 3 StatementType.SELECT =
      ("SELECT 1 LIMIT 3".data, false) :=
  ⟨by decide, claim_C3 "SELECT 1".data 3 StatementType.SELECT (by decide)
    "SELECT 1 LIMIT 3".data true (by decide)⟩

/-- Claim C6 (amended): for a read-only statement in which the scan finds a
`LIMIT n` clause, `enforce_limit` passes the statement through byte-for-byte
with modified=false when n is within bounds, and otherwise reports
modified=true and replaces the entire matched clause (keyword, internal
whitespace and numeral — not just the numeral) with the canonical
`LIMIT <max>` text, doing so for every matched clause. -/
theorem claim_C6 (s : Str) (m : Nat) (t : StatementType)
    (hro : is_read_only_statement t = true)
    (b ds r : Str) (hs : searchLimit none s = some (b, ds, r)) :
    (digitsVal ds ≤ m → enforce_limit s m t = (s, false))
    ∧ (m < digitsVal ds →
      enforce_limit s m t = (subLimitAll m none s, true) ∧
      subLimitAll m none s =
        b ++ ("LIMIT ".data ++ natDigits m) ++
          subLimitAll m (some (ds.getLastD '0')) r) := by
  rw [enforce_limit_ro_some hro hs]
  constructor
  · intro hle
    exact if_neg (by omega)
  · intro hgt
    exact ⟨if_pos (by omega), subLimitAll_some m hs⟩

/-- Counterexample for C6 as stated: on a lower-case `limit 1000` clause the
code does not leave the non-numeral text unchanged — the whole clause is
rewritten to upper-case `LIMIT 50`, so the output differs from the claimed
numeral-only replacement. -/
theorem claim_C6_counterexample :
    enforce_limit "select * from t limit 1000".data 50 StatementType.SELECT =
      ("select * from t LIMIT 50".data, true) ∧
    ("select * from t LIMIT 50".data : Str) ≠ "select * from t limit 50".data := by
  have hsearch : searchLimit none "select * from t limit 1000".data =
      some ("select * from t ".data, "1000".data, []) := by decide
  have hsub : subLimitAll 50 none "select * from t limit 1000".data =
      "select * from t LIMIT 50".data := by
    rw [subLimitAll_some 50 hsearch, subLimitAll_none 50 (searchLimit_nil _)]
    decide
  constructor
  · rw [enforce_limit_ro_some (by decide) hsearch, if_pos (by decide), hsub]
  · decide

/-- Witness for C6 at the spec's example input: the oversized clause is
replaced by the canonical `LIMIT 50` text with modified=true. -/
theorem claim_C6_witness :
    enforce_limit "SELECT * FROM t LIMIT 1000".data 50 StatementType.SELECT =
      (subLimitAll 50 none "SELECT * FROM t LIMIT 1000".data, true) ∧
    subLimitAll 50 none "SELECT * FROM t LIMIT 1000".data =
      "SELECT * FROM t ".data ++ ("LIMIT ".data ++ natDigits 50) ++
        subLimitAll 50 (some (("1000".data).getLastD '0')) [] :=
  (claim_C6 "SELECT * FROM t LIMIT 1000".data 50 StatementType.SELECT (by decide)
    "SELECT * FROM t ".data "1000".data [] (by decide)).2 (by decide)

/-- Witness for C9: a concrete read-only statement with no placeholder
tokens and hint=true is assigned status DRAFT. -/
theorem claim_C9_witness :
    (run_policy_gate (fun _ => ⟨[], []⟩) 50 "SELECT 1".data none true).status =
      QueryStatus.DRAFT :=
  (claim_C9 (fun _ => ⟨[], []⟩) 50 "SELECT 1".data none true (by decide) (by decide)).2.2
    (by decide) (by decide) rfl

end TextQL
